import Mathlib

/-!
Verification of the demo2agent workflow engine (orchestrator, output
validation, template rendering, and the JSON-guardrail completion client).

The definitions below are a shallow embedding of the Python sources in
src/demo2agent (orchestrator.py, models.py, llm_json.py).  Python values
flowing through the engine are modelled by the inductive type TVal;
Python floats are modelled as rationals; dicts are modelled as ordered
association lists (first occurrence wins on lookup, Python-dict update
semantics on assignment).  External collaborators (the two executor
objects, the repair hook, the OpenAI client) are modelled as oracle
functions supplied as parameters.
-/

namespace Demo2Agent

/-- Models a Python/JSON value as it flows through the engine
(str / float / bool / None / list / dict). -/
inductive TVal where
  | str (s : String)
  | num (q : Rat)
  | bool (b : Bool)
  | null
  | list (xs : List TVal)
  | dict (xs : List (String × TVal))

/-- Models Python type(v).__name__ for the values we model
(used in a few error messages). -/
def pyTypeName : TVal → String
  | .str _ => "str"
  | .num _ => "float"
  | .bool _ => "bool"
  | .null => "NoneType"
  | .list _ => "list"
  | .dict _ => "dict"

/-- Keys of a dict, in insertion order (models list(d.keys())). -/
def dictKeys (d : List (String × TVal)) : List String := d.map Prod.fst

/-- Models Python d.get(k): first binding of k, if any. -/
def dictGet (d : List (String × TVal)) (k : String) : Option TVal :=
  List.lookup k d

/-- Models Python d.get(k, default). -/
def dictGetD (d : List (String × TVal)) (k : String) (v₀ : TVal) : TVal :=
  (dictGet d k).getD v₀

/-- Models Python (k in d). -/
def dictHas (d : List (String × TVal)) (k : String) : Bool :=
  (dictGet d k).isSome

/-- Models Python dict assignment d[k] = v: overwrite in place when the key
exists, append otherwise. -/
def dictSet (d : List (String × TVal)) (k : String) (v : TVal) :
    List (String × TVal) :=
  if dictHas d k then
    d.map (fun kv => if kv.1 = k then (k, v) else kv)
  else
    d ++ [(k, v)]

/-- Models a Python exception: its message text together with its
explicit cause (the __cause__ set by raise ... from ...). -/
inductive PyErr where
  | mk (msg : String) (cause : Option PyErr)

/-- Message text of an exception (models str(e)). -/
def PyErr.msg : PyErr → String
  | .mk m _ => m

/-- Explicit cause of an exception. -/
def PyErr.cause : PyErr → Option PyErr
  | .mk _ c => c

/-- Models raise e from c: the raised exception keeps its message and its
__cause__ is replaced by c. -/
def PyErr.setCause (e c : PyErr) : PyErr :=
  .mk e.msg (some c)

/-- The four primitive output types (models ValueType in models.py). -/
inductive VType where
  | string
  | number
  | path
  | boolean
  deriving DecidableEq, Repr

/-- Zero value a missing declared field defaults to (models the Field
defaults in _TYPE_MAP in models.py). -/
def VType.zero : VType → TVal
  | .string => .str ("")
  | .number => .num 0
  | .path => .str ("")
  | .boolean => .bool false

/-- Parses a plain decimal literal (optional sign, digits, optional
fractional part) into a rational.  Models the numeric-string grammar
accepted by Python float() / pydantic on the inputs exercised here
(exponents, inf and nan are not modelled). -/
def digitsToNat (ds : List Char) : Nat :=
  ds.foldl (fun acc c => acc * 10 + (c.toNat - '0'.toNat)) 0

def parseDecimal (s : String) : Option Rat :=
  let cs := (s.data.dropWhile Char.isWhitespace).reverse.dropWhile Char.isWhitespace |>.reverse
  let (sgn, cs) :=
    match cs with
    | '-' :: rest => ((-1 : Int), rest)
    | '+' :: rest => ((1 : Int), rest)
    | rest => ((1 : Int), rest)
  let intPart := cs.takeWhile Char.isDigit
  let rest := cs.dropWhile Char.isDigit
  match rest with
  | [] =>
      if intPart = [] then none
      else some (mkRat (sgn * (digitsToNat intPart : Int)) 1)
  | '.' :: frac =>
      if frac.all Char.isDigit ∧ (intPart ≠ [] ∨ frac ≠ []) then
        some (mkRat
          (sgn * ((digitsToNat intPart * 10 ^ frac.length + digitsToNat frac : Nat) : Int))
          (10 ^ frac.length))
      else none
  | _ => none

/-- Models pydantic-v2 lax ("smart") coercion of a present value into a
declared field type, as performed by OutputModel.model_validate in
_validate_outputs: a str field accepts only str; a float field accepts
float and numeric str (bool is rejected); a bool field accepts bool,
the floats 0 and 1, and the usual boolean-ish strings.  none means the
field fails validation. -/
def coerceField (t : VType) (v : TVal) : Option TVal :=
  match t, v with
  | .string, .str s => some (.str s)
  | .path, .str s => some (.str s)
  | .number, .num q => some (.num q)
  | .number, .str s => (parseDecimal s).map .num
  | .boolean, .bool b => some (.bool b)
  | .boolean, .num q =>
      if q = 0 then some (.bool false)
      else if q = 1 then some (.bool true)
      else none
  | .boolean, .str s =>
      let l := s.toLower
      if l ∈ ["true", "t", "yes", "y", "on", "1"] then some (.bool true)
      else if l ∈ ["false", "f", "no", "n", "off", "0"] then some (.bool false)
      else none
  | _, _ => none

/-- Effective field list of the dynamic output model: make_output_model
substitutes a single ok field of type string when outputs_schema is
empty (models.py, make_output_model). -/
def effectiveSchema (schema : List (String × VType)) : List (String × VType) :=
  match schema with
  | [] => [("ok", .string)]
  | s => s

/-- Field-by-field validation of a returned mapping against the (effective)
schema: a declared field present is coerced (kept as-is when its type
matches), a declared field absent gets the type's zero value, undeclared
keys are dropped by construction.  Models OutputModel.model_validate
followed by model_dump. -/
def validateFields (schema : List (String × VType)) (raw : List (String × TVal)) :
    Except String (List (String × TVal)) :=
  match schema with
  | [] => .ok []
  | (k, t) :: restSchema =>
      match dictGet raw k with
      | some v =>
          match coerceField t v with
          | some v' =>
              (validateFields restSchema raw).map (fun r => (k, v') :: r)
          | none =>
              .error (k ++ ": input is not a valid " ++ (reprStr t))
      | none =>
          (validateFields restSchema raw).map (fun r => (k, t.zero) :: r)

/-- The diagnostic message _validate_outputs raises on validation failure
(orchestrator.py lines 95-99): it names the step id, the declared field
set of outputs_schema, the received keys, and the underlying validation
error. -/
def validationErrMsg (stepId : String) (schemaKeys : List String)
    (outputs : TVal) (verr : String) : String :=
  stepId ++ ": executor output failed OutputModel validation.\nExpected fields: [" ++
    String.intercalate (", ") schemaKeys ++ "]\nGot keys: " ++
    (match outputs with
     | .dict raw => "[" ++ String.intercalate (", ") (dictKeys raw) ++ "]"
     | v => "<class '" ++ pyTypeName v ++ "'>") ++
    "\nValidation error: " ++ verr

/-- Step type (models StepType in models.py). -/
inductive StepType where
  | WEB
  | DESKTOP
  | WAIT
  deriving DecidableEq, Repr

/-- Executor hint (models ExecutorHint in models.py). -/
inductive ExecHint where
  | browser_use
  | desktop_ax
  | auto
  deriving DecidableEq, Repr

/-- Execution limits (models StepPolicy in models.py, with its defaults). -/
structure StepPolicy where
  max_actions : Nat := 12
  max_seconds : Nat := 60
  retries : Nat := 0
  deriving DecidableEq, Repr

/-- A workflow step (models Step in models.py).  fallbacks are owned
recursively, so Step is a recursive inductive; inputs is an arbitrary
nested mapping and postconditions a list of mappings, both modelled with
TVal. -/
inductive Step where
  | mk (id : String) (type : StepType) (goal : String)
      (inputs : List (String × TVal))
      (outputs_schema : List (String × VType))
      (postconditions : List TVal)
      (policy : StepPolicy)
      (executor_hint : ExecHint)
      (fallbacks : List Step)

def Step.id : Step → String
  | .mk i _ _ _ _ _ _ _ _ => i

def Step.type : Step → StepType
  | .mk _ t _ _ _ _ _ _ _ => t

def Step.goal : Step → String
  | .mk _ _ g _ _ _ _ _ _ => g

def Step.inputs : Step → List (String × TVal)
  | .mk _ _ _ i _ _ _ _ _ => i

def Step.outputs_schema : Step → List (String × VType)
  | .mk _ _ _ _ o _ _ _ _ => o

def Step.postconditions : Step → List TVal
  | .mk _ _ _ _ _ p _ _ _ => p

def Step.policy : Step → StepPolicy
  | .mk _ _ _ _ _ _ p _ _ => p

def Step.executor_hint : Step → ExecHint
  | .mk _ _ _ _ _ _ _ h _ => h

def Step.fallbacks : Step → List Step
  | .mk _ _ _ _ _ _ _ _ f => f

/-- A compiled workflow (models WorkflowSpec in models.py). -/
structure Workflow where
  name : String := "wf"
  created_at_iso : String := ""
  inputs : List (String × VType) := []
  steps : List Step

/-- Enforces that executor output matches the step's dynamic output model
(models _validate_outputs in orchestrator.py): validate against the
effective schema; on failure raise a RuntimeError naming the step, the
declared (raw) outputs_schema keys and the received keys, with the
pydantic error as cause. -/
def validate_outputs (step : Step) (outputs : TVal) :
    Except PyErr (List (String × TVal)) :=
  match outputs with
  | .dict raw =>
      match validateFields (effectiveSchema step.outputs_schema) raw with
      | .ok res => .ok res
      | .error verr =>
          .error (.mk
            (validationErrMsg step.id (step.outputs_schema.map Prod.fst) outputs verr)
            (some (.mk verr none)))
  | v =>
      -- model_validate on a non-mapping raises a pydantic ValidationError,
      -- reported the same way (Got keys shows the value's type).
      .error (.mk
        (validationErrMsg step.id (step.outputs_schema.map Prod.fst) v
          ("input is not a valid dictionary"))
        (some (.mk ("input is not a valid dictionary") none)))

/-- Postcondition verification (orchestrator.py verify): the body of the
source function is pass (all concrete checks are commented out), so it
always succeeds. -/
def verify (_step : Step) (_outputs : List (String × TVal)) : Except PyErr Unit :=
  .ok ()

/-! ## Template renderer

Models the Jinja2 environment built by Orchestrator.__init__ with its
default strict_templates=True, i.e. Environment(undefined=StrictUndefined,
autoescape=False), restricted to the template fragment this system uses:
literal text interleaved with variable references of the form
\x7b\x7b name.name...name \x7d\x7d.  A reference is resolved against the run
context; an unresolvable reference is a hard error (StrictUndefined),
never an empty substitution. -/

/-- One parsed piece of a template string: literal text or a
dotted variable reference. -/
inductive Chunk where
  | lit (s : String)
  | var (path : List String)
  deriving DecidableEq, Repr

/-- Identifier characters accepted inside a variable reference. -/
def isIdentChar (c : Char) : Bool := c.isAlphanum || c = '_'

/-- Strips leading and trailing whitespace from a character list
(models str.strip()). -/
def trimChars (cs : List Char) : List Char :=
  ((cs.dropWhile Char.isWhitespace).reverse.dropWhile Char.isWhitespace).reverse

/-- Splits a character list at the dots of a dotted reference. -/
def splitDotsAux : List Char → List Char → List (List Char)
  | [], acc => [acc.reverse]
  | '.' :: rest, acc => acc.reverse :: splitDotsAux rest []
  | c :: rest, acc => splitDotsAux rest (c :: acc)

def splitDots (cs : List Char) : List (List Char) := splitDotsAux cs []

/-- Parses one segment of a dotted reference: trimmed, nonempty,
identifier characters only, not starting with a digit. -/
def parseSeg (cs : List Char) : Except String String :=
  match trimChars cs with
  | [] => .error ("expected name")
  | c :: rest =>
      if ((c :: rest).all isIdentChar) && !c.isDigit then
        .ok (String.mk (c :: rest))
      else .error ("unexpected char in expression")

/-- Parses the content between the \x7b\x7b \x7d\x7d delimiters as a dotted
variable reference. -/
def parseVarPath (cs : List Char) : Except String (List String) :=
  (splitDots cs).mapM parseSeg

/-- Scanner state: collecting literal text, or collecting the content of a
variable reference (accumulators are reversed). -/
inductive ScanMode where
  | lit (acc : List Char)
  | var (acc : List Char)

/-- Prepends the pending literal accumulator (if nonempty) as a chunk. -/
def emitLit (acc : List Char) (cs : List Chunk) : List Chunk :=
  match acc with
  | [] => cs
  | _ => .lit (String.mk acc.reverse) :: cs

/-- One-pass template scanner: \x7b\x7b opens a variable reference,
\x7d\x7d closes it, everything else is literal text; an unterminated
reference is a template syntax error. -/
def scanGo : List Char → ScanMode → Except String (List Chunk)
  | [], .lit acc => .ok (emitLit acc [])
  | [], .var _ => .error ("unexpected end of template")
  | '{' :: '{' :: rest, .lit acc =>
      (scanGo rest (.var [])).map (fun cs => emitLit acc cs)
  | '}' :: '}' :: rest, .var acc =>
      match parseVarPath acc.reverse with
      | .error e => .error e
      | .ok p => (scanGo rest (.lit [])).map (fun cs => .var p :: cs)
  | c :: rest, .lit acc => scanGo rest (.lit (c :: acc))
  | c :: rest, .var acc => scanGo rest (.var (c :: acc))

/-- Strips a single trailing newline sequence from the template source,
as the Jinja2 lexer does under the default keep_trailing_newline=False
(one trailing "\r\n", "\r" or "\n" is removed before parsing; Jinja's
normalization of interior "\r\n"/"\r" line breaks to "\n" is not
modelled, matching the other carve-outs of this embedding). -/
def stripTrailingNewline (cs : List Char) : List Char :=
  match cs.reverse with
  | '\n' :: '\r' :: rest => rest.reverse
  | '\n' :: rest => rest.reverse
  | '\r' :: rest => rest.reverse
  | _ => cs

/-- Whether the character list ends in a newline character (so that
parsing would strip it). -/
def endsNL (cs : List Char) : Bool :=
  match cs.reverse with
  | '\n' :: _ => true
  | '\r' :: _ => true
  | _ => false

/-- Parses a template string into chunks (models env.from_string,
including the default keep_trailing_newline=False strip of one trailing
newline from the source). -/
def parseTemplate (s : String) : Except String (List Chunk) :=
  scanGo (stripTrailingNewline s.data) (.lit [])

/-- Jinja attribute/item access on a resolved value: only mappings expose
named members; anything else yields an undefined. -/
def getAttr (v : TVal) (k : String) : Option TVal :=
  match v with
  | .dict d => dictGet d k
  | _ => none

/-- Resolves a dotted reference against the run context; none models an
undefined (which StrictUndefined turns into a hard error on use). -/
def resolvePath (ctx : List (String × TVal)) : List String → Option TVal
  | [] => none
  | k :: rest =>
      match List.lookup k ctx with
      | none => none
      | some v => rest.foldlM getAttr v

/-- Decimal rendering of a rational, used to model str() of a Python
float: integers print with a trailing .0, finitely-decimal rationals
print their digits, anything else falls back to the rational's own
notation (binary floating-point artifacts are not modelled). -/
def ratPyStr (q : Rat) : String :=
  if q.den = 1 then toString q.num ++ ".0"
  else
    match (List.range 30).find? (fun k => (10 : Nat) ^ k % q.den = 0) with
    | some k =>
        let scaled := q.num * (((10 : Nat) ^ k / q.den : Nat) : Int)
        let sgn := if scaled < 0 then "-" else ""
        let digits := toString scaled.natAbs
        let padded :=
          if digits.length ≤ k then
            String.mk (List.replicate (k + 1 - digits.length) '0') ++ digits
          else digits
        let n := padded.length
        sgn ++ (padded.take (n - k)) ++ "." ++ (padded.drop (n - k))
    | none => toString q

mutual
/-- Models str(v) as Jinja applies it when substituting a resolved value
into the output text. -/
def jinjaStr : TVal → String
  | .str s => s
  | .num q => ratPyStr q
  | .bool b => if b then "True" else "False"
  | .null => "None"
  | .list xs => "[" ++ String.intercalate (", ") (jinjaStrList xs) ++ "]"
  | .dict xs => "\x7b" ++ String.intercalate (", ") (jinjaStrDict xs) ++ "\x7d"

def jinjaStrList : List TVal → List String
  | [] => []
  | v :: vs => pyRepr v :: jinjaStrList vs
termination_by structural v => v

def jinjaStrDict : List (String × TVal) → List String
  | [] => []
  | (k, v) :: vs => ("'" ++ k ++ "': " ++ pyRepr v) :: jinjaStrDict vs
termination_by structural v => v

/-- Models repr(v) for container elements (string escaping inside repr is
not modelled). -/
def pyRepr : TVal → String
  | .str s => "'" ++ s ++ "'"
  | .num q => ratPyStr q
  | .bool b => if b then "True" else "False"
  | .null => "None"
  | .list xs => "[" ++ String.intercalate (", ") (jinjaStrList xs) ++ "]"
  | .dict xs => "\x7b" ++ String.intercalate (", ") (jinjaStrDict xs) ++ "\x7d"
termination_by structural v => v
end

/-- Substitutes one chunk: literal text passes through, a variable
reference resolves against the context (strict-undefined: an
unresolvable reference is an error, never an empty substitution). -/
def renderChunk (ctx : List (String × TVal)) : Chunk → Except String String
  | .lit t => .ok t
  | .var p =>
      match resolvePath ctx p with
      | some v => .ok (jinjaStr v)
      | none => .error ("'" ++ String.intercalate (".") p ++ "' is undefined")

/-- Renders one template string against the context: parse into chunks,
substitute every chunk, and concatenate. -/
def renderString (ctx : List (String × TVal)) (s : String) : Except String String :=
  match parseTemplate s with
  | .error e => .error e
  | .ok chunks =>
      (chunks.mapM (renderChunk ctx)).map (fun parts => String.join parts)

/-- Renders a string leaf, wrapping a template failure the way
render_templates does (RuntimeError with the TemplateError as cause). -/
def renderStrField (ctx : List (String × TVal)) (s : String) :
    Except PyErr String :=
  match renderString ctx s with
  | .ok r => .ok r
  | .error e =>
      .error (.mk ("Template render failed for '" ++ s ++ "': " ++ e)
        (some (.mk e none)))

mutual
/-- Recursive template walk (models render_templates in orchestrator.py):
string leaves are rendered, dicts and lists are walked structurally,
all other leaves pass through unchanged. -/
def render_templates (ctx : List (String × TVal)) : TVal → Except PyErr TVal
  | .str s => (renderStrField ctx s).map TVal.str
  | .dict xs => (renderDict ctx xs).map TVal.dict
  | .list xs => (renderList ctx xs).map TVal.list
  | v => .ok v
termination_by structural v => v

def renderDict (ctx : List (String × TVal)) :
    List (String × TVal) → Except PyErr (List (String × TVal))
  | [] => .ok []
  | (k, v) :: rest =>
      match render_templates ctx v with
      | .error e => .error e
      | .ok v' => (renderDict ctx rest).map (fun r => (k, v') :: r)
termination_by structural v => v

def renderList (ctx : List (String × TVal)) :
    List TVal → Except PyErr (List TVal)
  | [] => .ok []
  | v :: rest =>
      match render_templates ctx v with
      | .error e => .error e
      | .ok v' => (renderList ctx rest).map (fun r => v' :: r)
termination_by structural v => v
end

mutual
/-- Renders templates everywhere a user might write them: goal, inputs,
postconditions, and fallbacks recursively (models _render_step in
orchestrator.py; id, type, schema, policy and hint are untouched). -/
def render_step (ctx : List (String × TVal)) : Step → Except PyErr Step
  | .mk id ty goal ins schema posts pol hint fbs =>
      match renderStrField ctx goal with
      | .error e => .error e
      | .ok goal' =>
          match renderDict ctx ins with
          | .error e => .error e
          | .ok ins' =>
              match renderList ctx posts with
              | .error e => .error e
              | .ok posts' =>
                  match renderFallbacks ctx fbs with
                  | .error e => .error e
                  | .ok fbs' =>
                      .ok (.mk id ty goal' ins' schema posts' pol hint fbs')
termination_by structural s => s

def renderFallbacks (ctx : List (String × TVal)) :
    List Step → Except PyErr (List Step)
  | [] => .ok []
  | s :: rest =>
      match render_step ctx s with
      | .error e => .error e
      | .ok s' => (renderFallbacks ctx rest).map (fun r => s' :: r)
termination_by structural s => s
end

/-! ## Orchestration engine

Models Orchestrator.run (orchestrator.py lines 128-221).  The two
executor objects and the optional repair hook are external collaborators,
modelled as oracles; each executor call is indexed by a global call
counter so that per-attempt behaviour ("always fails", "succeeds on the
second call", ...) can be expressed.  Wall-clock time is modelled by a
rational clock advanced by sleeps and by the oracle-reported duration of
each executor call.  Every observable action of the engine is recorded in
an event trace. -/

/-- Rational addition computed through mkRat (definitionally equal to +
on ℚ; spelled this way so that concrete engine runs evaluate inside the
kernel). -/
def ratAdd (q r : Rat) : Rat :=
  mkRat (q.num * (r.den : Int) + r.num * (q.den : Int)) (q.den * r.den)

/-- Rational subtraction computed through mkRat. -/
def ratSub (q r : Rat) : Rat :=
  mkRat (q.num * (r.den : Int) - r.num * (q.den : Int)) (q.den * r.den)

/-- Models Python float(v) applied to a step input value. -/
def pyFloat : TVal → Except PyErr Rat
  | .num q => .ok q
  | .bool b => .ok (if b then 1 else 0)
  | .str s =>
      match parseDecimal s with
      | some q => .ok q
      | none => .error (.mk ("could not convert string to float: '" ++ s ++ "'") none)
  | v => .error (.mk ("float() argument must be a string or a real number, not '" ++
      pyTypeName v ++ "'") none)

/-- Run context: the flat dict \x7b**inputs, "steps": \x7b\x7d\x7d the engine
threads through a run and hands to the renderer. -/
abbrev Ctx := List (String × TVal)

/-- Observable engine events, in order of occurrence. -/
inductive Ev where
  | attemptStart (step : Step)
  | execCall (kind : StepType) (step : Step)
  | waitSleep (secs : Rat)
  | backoff (secs : Rat)
  | repairCall (wf : Workflow) (failing : Step) (err : String) (ctx : Ctx)
  | repairAttemptStart (step : Step)
  | commitEv (id : String) (outs : List (String × TVal))

/-- Result of one external executor call: how long it took and what it
returned (or the exception it raised). -/
structure ExecResult where
  elapsed : Rat := 0
  result : Except PyErr TVal

/-- The external collaborators handed to Orchestrator.__init__: the two
executors (indexed by the global executor-call counter) and the optional
repair hook. -/
structure Oracles where
  web_exec : Nat → Step → ExecResult
  desktop_exec : Nat → Step → ExecResult
  repair_hook : Option (Workflow → Step → String → Ctx → Workflow) := none

/-- Mutable engine bookkeeping: the clock, the executor-call counter and
the event trace. -/
structure EngineSt where
  now : Rat := 0
  calls : Nat := 0
  trace : List Ev := []

/-- Appends an event to the trace. -/
def pushEv (st : EngineSt) (e : Ev) : EngineSt :=
  { st with trace := st.trace ++ [e] }

/-- Invokes one executor oracle: records the call, advances the clock by
its duration, bumps the call counter. -/
def callExec (f : Nat → Step → ExecResult) (kind : StepType) (step : Step)
    (st : EngineSt) : EngineSt × Except PyErr TVal :=
  let r := f st.calls step
  ({ pushEv st (.execCall kind step) with
      calls := st.calls + 1, now := ratAdd st.now r.elapsed }, r.result)

/-- The WAIT branch shared by the retry loop and the post-repair attempt:
sleep max(0, seconds) and report the unclamped seconds. -/
def waitBranch (step : Step) (st : EngineSt) : EngineSt × Except PyErr TVal :=
  match pyFloat (dictGetD step.inputs ("seconds") (.num 1)) with
  | .error e => (st, .error e)
  | .ok secs =>
      let slept := max 0 secs
      ({ pushEv st (.waitSleep slept) with now := ratAdd st.now slept },
        .ok (.dict [("waited_seconds", .num secs)]))

/-- Dispatch with the fail-fast structural checks of the main attempt loop
(orchestrator.py lines 139-162): hint compatibility and required inputs
are checked before the executor is invoked. -/
def dispatch (O : Oracles) (step : Step) (st : EngineSt) :
    EngineSt × Except PyErr TVal :=
  match step.type with
  | .WEB =>
      if step.executor_hint ≠ .browser_use ∧ step.executor_hint ≠ .auto then
        (st, .error (.mk (step.id ++ ": WEB step must use executor_hint=browser_use/auto") none))
      else if ¬ dictHas step.inputs ("task") then
        (st, .error (.mk (step.id ++ ": WEB step.inputs.task is required") none))
      else callExec O.web_exec .WEB step st
  | .DESKTOP =>
      if step.executor_hint ≠ .desktop_ax ∧ step.executor_hint ≠ .auto then
        (st, .error (.mk (step.id ++ ": DESKTOP step must use executor_hint=desktop_ax/auto") none))
      -- the isinstance(step.inputs, dict) check always passes in this
      -- model, because Step.inputs is a mapping by construction
      else if ¬ dictHas step.inputs ("task") ∧ ¬ dictHas step.inputs ("actions") then
        (st, .error (.mk (step.id ++ ": DESKTOP needs inputs.task or inputs.actions") none))
      else callExec O.desktop_exec .DESKTOP step st
  | .WAIT => waitBranch step st

/-- Dispatch as performed by the post-repair attempt (orchestrator.py
lines 196-206): the executor matching the step type is invoked directly,
with no hint or required-input checks. -/
def dispatchNoChecks (O : Oracles) (step : Step) (st : EngineSt) :
    EngineSt × Except PyErr TVal :=
  match step.type with
  | .WEB => callExec O.web_exec .WEB step st
  | .DESKTOP => callExec O.desktop_exec .DESKTOP step st
  | .WAIT => waitBranch step st

/-- One iteration of the try-body of the main attempt loop: dispatch,
advisory timeout check, dict check, output validation, postcondition
verification.  Returns the validated outputs to commit. -/
def attempt_body (O : Oracles) (step : Step) (st : EngineSt) :
    EngineSt × Except PyErr (List (String × TVal)) :=
  let t0 := st.now
  match dispatch O step st with
  | (st', .error e) => (st', .error e)
  | (st', .ok raw) =>
      if ratSub st'.now t0 > (step.policy.max_seconds : Rat) then
        (st', .error (.mk (step.id ++ ": exceeded max_seconds") none))
      else
        match raw with
        | .dict _ =>
            (match validate_outputs step raw with
             | .error e => (st', .error e)
             | .ok outs =>
                 match verify step outs with
                 | .error e => (st', .error e)
                 | .ok _ => (st', .ok outs))
        | v =>
            (st', .error (.mk (step.id ++ ": executor must return dict, got <class '" ++
              pyTypeName v ++ "'>") none))

/-- The single post-repair attempt body (orchestrator.py lines 196-209):
dispatch without checks, then validation and verification — no timeout
check and no dict pre-check (a non-dict is caught by validation). -/
def post_repair_body (O : Oracles) (step : Step) (st : EngineSt) :
    EngineSt × Except PyErr (List (String × TVal)) :=
  match dispatchNoChecks O step st with
  | (st', .error e) => (st', .error e)
  | (st', .ok raw) =>
      match validate_outputs step raw with
      | .error e => (st', .error e)
      | .ok outs =>
          match verify step outs with
          | .error e => (st', .error e)
          | .ok _ => (st', .ok outs)

/-- Commits validated outputs into ctx["steps"][id] (the sole mutation
point of the run context). -/
def ctxCommit (ctx : Ctx) (id : String) (outs : List (String × TVal)) : Ctx :=
  match dictGet ctx ("steps") with
  | some (.dict d) => dictSet ctx ("steps") (.dict (dictSet d id (.dict outs)))
  | _ => ctx  -- unreachable for contexts built by run, which installs "steps"

/-- The repair branch taken once the retry budget is exhausted
(orchestrator.py lines 190-216): invoke the hook with (workflow, failing
step, error text, context), take the replacement step at the same index
from the returned workflow, re-render it, and perform exactly one more
attempt; a second failure is re-raised with the originating error as
cause (raise e2 from e). -/
def repairBranch (O : Oracles) (wfCur : Workflow) (i : Nat) (step : Step)
    (ctx : Ctx) (e : PyErr) (st : EngineSt) :
    EngineSt × Except PyErr (Ctx × Workflow) :=
  match O.repair_hook with
  | none => (st, .error e)
  | some h =>
      let wf' := h wfCur step e.msg ctx
      let st := pushEv st (.repairCall wfCur step e.msg ctx)
      match wf'.steps[i]? with
      | none => (st, .error (.mk ("IndexError: list index out of range") none))
      | some step0' =>
          match render_step ctx step0' with
          | .error re => (st, .error re)
          | .ok step' =>
              let st := pushEv st (.repairAttemptStart step')
              match post_repair_body O step' st with
              | (st', .ok outs) =>
                  let ctx' := ctxCommit ctx step'.id outs
                  (pushEv st' (.commitEv step'.id outs), .ok (ctx', wf'))
              | (st', .error e2) => (st', .error (e2.setCause e))

/-- The per-step attempt loop (orchestrator.py lines 135-216), recursing
on the number of attempts left.  On success commit to the context; on
failure retry after a fixed 0.3s backoff while attempts remain, then
fall into the repair branch (or raise). -/
def retry_loop (O : Oracles) (wfCur : Workflow) (i : Nat) (step : Step)
    (ctx : Ctx) : Nat → EngineSt → EngineSt × Except PyErr (Ctx × Workflow)
  | 0, st =>
      -- never reached: the loop is entered with policy.retries + 1 attempts
      (st, .error (.mk ("no attempts") none))
  | 1, st =>
      -- last attempt: a failure here exhausts the budget and falls into
      -- the repair branch (or is raised when no hook is configured)
      let st := pushEv st (.attemptStart step)
      match attempt_body O step st with
      | (st', .ok outs) =>
          let ctx' := ctxCommit ctx step.id outs
          (pushEv st' (.commitEv step.id outs), .ok (ctx', wfCur))
      | (st', .error e) => repairBranch O wfCur i step ctx e st'
  | remaining + 2, st =>
      let st := pushEv st (.attemptStart step)
      match attempt_body O step st with
      | (st', .ok outs) =>
          let ctx' := ctxCommit ctx step.id outs
          (pushEv st' (.commitEv step.id outs), .ok (ctx', wfCur))
      | (st', .error _e) =>
          let st'' := { pushEv st' (.backoff (mkRat 3 10)) with now := ratAdd st'.now (mkRat 3 10) }
          retry_loop O wfCur i step ctx (remaining + 1) st''
termination_by structural n => n

/-- Runs one workflow step: render it against the current context, then
enter the attempt loop with policy.retries + 1 attempts. -/
def run_step (O : Oracles) (wfCur : Workflow) (i : Nat) (step0 : Step)
    (ctx : Ctx) (st : EngineSt) : EngineSt × Except PyErr (Ctx × Workflow) :=
  match render_step ctx step0 with
  | .error e => (st, .error e)
  | .ok step => retry_loop O wfCur i step ctx (step.policy.retries + 1) st

/-- Folds run_step over the (original) step list.  wfCur is the workflow
the repair hook sees and indexes into; Python's for-loop iterates the
original wf.steps list even after the hook rebinds wf, which is why the
iteration list and wfCur are threaded separately. -/
def run_steps (O : Oracles) : List Step → Nat → Workflow → Ctx → EngineSt →
    EngineSt × Except PyErr (Ctx × Workflow)
  | [], _, wfCur, ctx, st => (st, .ok (ctx, wfCur))
  | s :: ss, i, wfCur, ctx, st =>
      match run_step O wfCur i s ctx st with
      | (st', .ok (ctx', wf')) => run_steps O ss (i + 1) wf' ctx' st'
      | (st', .error e) => (st', .error e)

/-- Models Orchestrator.run: build ctx = \x7b**inputs, "steps": \x7b\x7d\x7d,
execute all steps in document order, and return the final context. -/
def orchestrator_run (O : Oracles) (wf : Workflow) (inputs : Ctx) :
    EngineSt × Except PyErr Ctx :=
  let ctx0 := dictSet inputs ("steps") (.dict [])
  match run_steps O wf.steps 0 wf ctx0 {} with
  | (st, .ok (ctx, _)) => (st, .ok ctx)
  | (st, .error e) => (st, .error e)

/-! ## Schema-guarded completion client

Models LLMJsonCaller.call_json (llm_json.py).  The OpenAI Responses API
is an external collaborator, modelled as an oracle from the call index
and the full request to a response carrying an optional SDK-parsed value
and the raw output text.  json.loads is modelled by a small JSON reader
over the value grammar this system exchanges (escape sequences and
exponent notation are not modelled). -/

/-- Drops leading JSON whitespace. -/
def skipWs (cs : List Char) : List Char :=
  cs.dropWhile Char.isWhitespace

/-- Characters that may start or continue a JSON number literal here. -/
def isNumChar (c : Char) : Bool :=
  c.isDigit || c = '-' || c = '+' || c = '.'

mutual
/-- Reads one JSON value (fuel-indexed to bound nesting). -/
def jsonVal (fuel : Nat) (cs : List Char) : Except String (TVal × List Char) :=
  match fuel with
  | 0 => .error ("nesting too deep")
  | fuel + 1 =>
      match skipWs cs with
      | 'n' :: 'u' :: 'l' :: 'l' :: rest => .ok (.null, rest)
      | 't' :: 'r' :: 'u' :: 'e' :: rest => .ok (.bool true, rest)
      | 'f' :: 'a' :: 'l' :: 's' :: 'e' :: rest => .ok (.bool false, rest)
      | '"' :: rest =>
          let content := rest.takeWhile (· ≠ '"')
          (match rest.dropWhile (· ≠ '"') with
           | '"' :: rest' => .ok (.str (String.mk content), rest')
           | _ => .error ("unterminated string"))
      | '[' :: rest => jsonArr fuel rest true
      | '\x7b' :: rest => jsonObj fuel rest true
      | c :: rest =>
          if isNumChar c then
            let numCs := (c :: rest).takeWhile isNumChar
            (match parseDecimal (String.mk numCs) with
             | some q => .ok (.num q, (c :: rest).dropWhile isNumChar)
             | none => .error ("Expecting value"))
          else .error ("Expecting value")
      | [] => .error ("Expecting value")

/-- Reads the remainder of a JSON array (first: no element read yet). -/
def jsonArr (fuel : Nat) (cs : List Char) (first : Bool) :
    Except String (TVal × List Char) :=
  match fuel with
  | 0 => .error ("nesting too deep")
  | fuel + 1 =>
      match skipWs cs, first with
      | ']' :: rest, true => .ok (.list [], rest)
      | cs', _ =>
          match jsonVal fuel cs' with
          | .error e => .error e
          | .ok (v, rest) =>
              match skipWs rest with
              | ',' :: rest' =>
                  (match jsonArr fuel rest' false with
                   | .ok (.list vs, rest'') => .ok (.list (v :: vs), rest'')
                   | .ok _ => .error ("Expecting value")
                   | .error e => .error e)
              | ']' :: rest' => .ok (.list [v], rest')
              | _ => .error ("Expecting ',' delimiter")

/-- Reads the remainder of a JSON object. -/
def jsonObj (fuel : Nat) (cs : List Char) (first : Bool) :
    Except String (TVal × List Char) :=
  match fuel with
  | 0 => .error ("nesting too deep")
  | fuel + 1 =>
      match skipWs cs, first with
      | '\x7d' :: rest, true => .ok (.dict [], rest)
      | '"' :: cs', _ =>
          let key := cs'.takeWhile (· ≠ '"')
          (match cs'.dropWhile (· ≠ '"') with
           | '"' :: rest =>
               (match skipWs rest with
                | ':' :: rest' =>
                    (match jsonVal fuel rest' with
                     | .error e => .error e
                     | .ok (v, rest'') =>
                         match skipWs rest'' with
                         | ',' :: rest''' =>
                             (match jsonObj fuel rest''' false with
                              | .ok (.dict kvs, r) =>
                                  .ok (.dict ((String.mk key, v) :: kvs), r)
                              | .ok _ => .error ("Expecting value")
                              | .error e => .error e)
                         | '\x7d' :: rest''' =>
                             .ok (.dict [(String.mk key, v)], rest''')
                         | _ => .error ("Expecting ',' delimiter"))
                | _ => .error ("Expecting ':' delimiter"))
           | _ => .error ("unterminated string"))
      | _, _ => .error ("Expecting property name enclosed in double quotes")
end

/-- Models json.loads: read one value, require only whitespace after it. -/
def json_loads (s : String) : Except String TVal :=
  match jsonVal (s.length + 1) s.data with
  | .error e => .error e
  | .ok (v, rest) =>
      match skipWs rest with
      | [] => .ok v
      | _ => .error ("Extra data")

/-- Models JSONCallConfig (llm_json.py) with its defaults. -/
structure JSONCallConfig where
  model : String := ""
  retries : Nat := 2
  strict_schema : Bool := true

/-- One content part of a structured user message. -/
inductive ContentPart where
  | input_text (text : String)
  | input_image (url : String)
  deriving DecidableEq, Repr

/-- User content: a plain string or a list of content parts. -/
inductive UserContent where
  | str (s : String)
  | parts (ps : List ContentPart)
  deriving DecidableEq, Repr

/-- The request call_json submits on one attempt. -/
structure LLMRequest where
  system : String
  user : UserContent
  schema_name : Option String := none
  schema : Option TVal := none

/-- A response from the external model: the SDK-parsed value, if the SDK
provided one, and the raw output text. -/
structure LLMResp where
  output_parsed : Option TVal := none
  output_text : String := ""

/-- The external completion oracle: call index and request to response. -/
abbrev LLMOracle := Nat → LLMRequest → LLMResp

/-- Models str.strip() on the output text. -/
def stripStr (s : String) : String := String.mk (trimChars s.data)

/-- The repair follow-up text prepended from the second attempt on
(llm_json.py lines 119-128): embeds the validation error text, the fixed
instruction, optional extra constraints, and the previous invalid output
when it is nonempty. -/
def repairPreamble (lastErrMsg : String) (extra : Option String)
    (lastText : String) : String :=
  "Your previous output failed validation.\nValidation error:\n" ++ lastErrMsg ++
  "\n\nReturn ONLY corrected JSON that matches the schema.\n" ++
  (match extra with
   | some x => "\nExtra constraints:\n" ++ x ++ "\n"
   | none => "") ++
  (if lastText = "" then ""
   else "\nPrevious invalid output:\n" ++ lastText ++ "\n")

/-- Prepends the repair text to the user content (llm_json.py lines
130-138): string content by concatenation, part lists by an extra
input_text part when the preamble is nonempty. -/
def applyPreamble (p : String) (user : UserContent) : UserContent :=
  match user with
  | .str s => .str (p ++ s)
  | .parts ps => .parts ((if p = "" then [] else [.input_text p]) ++ ps)

/-- Log of one attempt: the request sent, the stripped output text
received, and the attempt's outcome (validated value or recorded error). -/
structure AttemptLog where
  request : LLMRequest
  text : String
  outcome : Except PyErr TVal

/-- The terminal guardrail message (llm_json.py lines 170-172). -/
def guardrailMsg (attempts : Nat) (lastErrMsg : String) : String :=
  "Failed to produce valid JSON after " ++ toString attempts ++
  " attempts. Last error: " ++ lastErrMsg

/-- The repair preamble for an attempt: empty on the first attempt,
built from the previous failure afterwards (llm_json.py lines 118-128). -/
def attemptPre (extra : Option String) : Option (PyErr × String) → String
  | none => ""
  | some (e, t) => repairPreamble e.msg extra t

/-- The request one attempt submits: the repair preamble prepended to the
caller's user content. -/
def mkReq (system : String) (user : UserContent) (schema_name : Option String)
    (schema : Option TVal) (pre : String) : LLMRequest :=
  { system := system, user := applyPreamble pre user,
    schema_name := schema_name, schema := schema }

/-- One attempt of the call_json loop (the body of the for-loop in
llm_json.py lines 117-168): build the repair preamble from the previous
failure, submit, prefer the SDK-parsed value, fall back to json.loads of
the stripped text, require a JSON object, then run the validator.
Returns either the finished result (validator success: return
immediately) or the recorded failure to carry into the next attempt. -/
def call_json_attempt (oracle : LLMOracle) (system : String)
    (user : UserContent) (schema_name : Option String) (schema : Option TVal)
    (validator : TVal → Except PyErr TVal) (extra : Option String)
    (prev : Option (PyErr × String)) (logs : List AttemptLog) :
    (List AttemptLog × Except PyErr TVal) ⊕ ((PyErr × String) × List AttemptLog) :=
  let req : LLMRequest :=
    mkReq system user schema_name schema (attemptPre extra prev)
  let resp := oracle logs.length req
  let lastText := stripStr resp.output_text
  let parsedE : Except PyErr TVal :=
    match resp.output_parsed with
    | some p => .ok p
    | none =>
        match json_loads lastText with
        | .ok p => .ok p
        | .error pe => .error (.mk ("JSON parse failed: " ++ pe) none)
  match parsedE with
  | .error err => .inr ((err, lastText), logs ++ [⟨req, lastText, .error err⟩])
  | .ok p =>
      match p with
      | .dict _ =>
          (match validator p with
           | .ok r => .inl (logs ++ [⟨req, lastText, .ok r⟩], .ok r)
           | .error e => .inr ((e, lastText), logs ++ [⟨req, lastText, .error e⟩]))
      | _ =>
          let e : PyErr :=
            .mk ("Expected JSON object, got <class '" ++ pyTypeName p ++ "'>") none
          .inr ((e, lastText), logs ++ [⟨req, lastText, .error e⟩])

/-- The attempt loop of call_json: prev carries (last_err, last_text) of
the failed previous attempt (none on the first attempt); exhausting the
budget raises the guardrail error carrying the last error text. -/
def call_json_go (oracle : LLMOracle) (cfg : JSONCallConfig) (system : String)
    (user : UserContent) (schema_name : Option String) (schema : Option TVal)
    (validator : TVal → Except PyErr TVal) (extra : Option String) :
    Nat → Option (PyErr × String) → List AttemptLog →
    List AttemptLog × Except PyErr TVal
  | 0, prev, logs =>
      (logs, .error (.mk
        (guardrailMsg (cfg.retries + 1)
          (match prev with
           | some (e, _) => e.msg
           | none => "None")) none))
  | remaining + 1, prev, logs =>
      match call_json_attempt oracle system user schema_name schema validator extra
          prev logs with
      | .inl done => done
      | .inr (prev', logs') =>
          call_json_go oracle cfg system user schema_name schema validator extra
            remaining (some prev') logs'

/-- Models LLMJsonCaller.call_json: up to cfg.retries + 1 attempts,
returning the attempt log alongside the result. -/
def call_json (oracle : LLMOracle) (cfg : JSONCallConfig) (system : String)
    (user : UserContent) (schema_name : Option String) (schema : Option TVal)
    (validator : TVal → Except PyErr TVal) (extra : Option String) :
    List AttemptLog × Except PyErr TVal :=
  call_json_go oracle cfg system user schema_name schema validator extra
    (cfg.retries + 1) none []

/-! ## Observation helpers

Projections of the event trace and auxiliary predicates the theorems are
stated with. -/

/-- The rendered steps of the attempt-loop iterations, in order. -/
def attemptsOf (evs : List Ev) : List Step :=
  evs.filterMap (fun e => match e with | .attemptStart s => some s | _ => none)

/-- The backoff sleeps, in order. -/
def backoffsOf (evs : List Ev) : List Rat :=
  evs.filterMap (fun e => match e with | .backoff q => some q | _ => none)

/-- The executor invocations, in order. -/
def execCallsOf (evs : List Ev) : List (StepType × Step) :=
  evs.filterMap (fun e => match e with | .execCall k s => some (k, s) | _ => none)

/-- The repair-hook invocations with their arguments, in order. -/
def repairCallsOf (evs : List Ev) : List (Workflow × Step × String × Ctx) :=
  evs.filterMap (fun e => match e with
    | .repairCall w s m c => some (w, s, m, c)
    | _ => none)

/-- The post-repair attempts, in order. -/
def repairAttemptsOf (evs : List Ev) : List Step :=
  evs.filterMap (fun e => match e with | .repairAttemptStart s => some s | _ => none)

/-- The context commits, in order. -/
def commitsOf (evs : List Ev) : List (String × List (String × TVal)) :=
  evs.filterMap (fun e => match e with | .commitEv i o => some (i, o) | _ => none)

/-- Whether a value is exactly of the declared primitive type (no
coercion involved). -/
def isOfType : VType → TVal → Bool
  | .string, .str _ => true
  | .path, .str _ => true
  | .number, .num _ => true
  | .boolean, .bool _ => true
  | _, _ => false

/-- s₂ occurs inside s₁ as a contiguous substring. -/
def strContains (s₁ s₂ : String) : Prop :=
  ∃ a b, s₁ = a ++ s₂ ++ b

mutual
/-- All string leaves of a value, in walk order. -/
def strLeaves : TVal → List String
  | .str s => [s]
  | .num _ => []
  | .bool _ => []
  | .null => []
  | .list xs => strLeavesList xs
  | .dict xs => strLeavesDict xs
termination_by structural v => v

def strLeavesList : List TVal → List String
  | [] => []
  | v :: vs => strLeaves v ++ strLeavesList vs
termination_by structural v => v

def strLeavesDict : List (String × TVal) → List String
  | [] => []
  | (_, v) :: vs => strLeaves v ++ strLeavesDict vs
termination_by structural v => v
end

/-- Whether a character list contains the template-open delimiter. -/
def hasOpen : List Char → Bool
  | '{' :: '{' :: _ => true
  | _ :: rest => hasOpen rest
  | [] => false

/-- A string free of the template-open delimiter. -/
def noOpenStr (s : String) : Bool := !hasOpen s.data

/-- A string the renderer maps to itself: free of the template-open
delimiter and of a trailing newline (which parsing would strip). -/
def stableStr (s : String) : Bool := noOpenStr s && !endsNL s.data

mutual
/-- Every string leaf of the value renders to itself. -/
def stableTVal : TVal → Bool
  | .str s => stableStr s
  | .num _ => true
  | .bool _ => true
  | .null => true
  | .list xs => stableList xs
  | .dict xs => stableDict xs
termination_by structural v => v

def stableList : List TVal → Bool
  | [] => true
  | v :: vs => stableTVal v && stableList vs
termination_by structural v => v

def stableDict : List (String × TVal) → Bool
  | [] => true
  | (_, v) :: vs => stableTVal v && stableDict vs
termination_by structural v => v
end

mutual
/-- Every rendered string of the step (goal, input leaves, postcondition
leaves, fallbacks recursively) renders to itself: free of the
template-open delimiter and of a trailing newline. -/
def stableStep : Step → Bool
  | .mk _ _ goal ins _ posts _ _ fbs =>
      stableStr goal && stableDict ins && stableList posts && stableSteps fbs
termination_by structural s => s

def stableSteps : List Step → Bool
  | [] => true
  | s :: ss => stableStep s && stableSteps ss
termination_by structural s => s
end

/-! ## Concrete fixtures used by witnesses and counterexamples -/

/-- Executors that never get consulted in the fixture runs that use them. -/
def idleOracles : Oracles where
  web_exec := fun _ _ => { result := .error (.mk ("web boom") none) }
  desktop_exec := fun _ _ => { result := .error (.mk ("desktop boom") none) }

/-- A step with an empty outputs_schema. -/
def emptySchemaStep : Step :=
  .mk ("s_empty") .WEB ("goal") [("task", .str ("t"))] [] [] {} .auto []

/-- A step declaring one boolean output field. -/
def flagStep : Step :=
  .mk ("s_flag") .WEB ("goal") [("task", .str ("t"))] [("flag", .boolean)] [] {} .auto []

/-- A step declaring a string and a number output field. -/
def geoStep : Step :=
  .mk ("s_geo") .WEB ("goal") [("task", .str ("t"))]
    [("front_app", .string), ("lat", .number)] [] {} .auto []

/-- A WAIT step with no "seconds" input. -/
def waitDefaultStep : Step := .mk ("w_def") .WAIT ("wait") [] [] [] {} .auto []

/-- A WAIT step asking for a negative duration. -/
def waitNegStep : Step :=
  .mk ("w_neg") .WAIT ("wait") [("seconds", .num (mkRat (-2) 1))] [] [] {} .auto []

/-- A WEB step whose dispatch checks pass. -/
def c5OrigStep : Step :=
  .mk ("web_c5") .WEB ("g") [("task", .str ("t"))] [] [] {} .auto []

/-- The replacement a repair hook swaps in: a WEB step whose
executor_hint is desktop_ax (incompatible) and whose inputs lack task. -/
def c5RepairedStep : Step :=
  .mk ("web_c5") .WEB ("g2") [] [] [] {} .desktop_ax []

/-- A failing web executor plus a repair hook that installs the
incompatible replacement step. -/
def c5Oracles : Oracles where
  web_exec := fun _ _ => { result := .error (.mk ("web boom") none) }
  desktop_exec := fun _ _ => { result := .error (.mk ("desktop boom") none) }
  repair_hook := some (fun _ _ _ _ => { steps := [c5RepairedStep] })

/-- The attempt log l is the correctly-built repair resubmission after
the failed attempt prevLog: its request embeds the previous validation
error text and the previous (stripped) invalid output. -/
def chainedFrom (user : UserContent) (extra : Option String)
    (prevLog l : AttemptLog) : Prop :=
  ∃ e, prevLog.outcome = .error e ∧
    l.request.user = applyPreamble (repairPreamble e.msg extra prevLog.text) user

/-- Every attempt after the first in the list is the repair resubmission
of its predecessor. -/
def wellChainedAux (user : UserContent) (extra : Option String) :
    AttemptLog → List AttemptLog → Prop
  | _, [] => True
  | prevLog, l :: ls => chainedFrom user extra prevLog l ∧ wellChainedAux user extra l ls

def wellChained (user : UserContent) (extra : Option String) :
    List AttemptLog → Prop
  | [] => True
  | l :: ls => wellChainedAux user extra l ls

/-- All attempts except possibly the last one failed. -/
def allButLastErr : List AttemptLog → Prop
  | [] => True
  | [_] => True
  | l :: ls => (∃ e, l.outcome = .error e) ∧ allButLastErr ls

/-- The completion oracle used by the C7 witness: plain text on the
first call, a valid JSON object afterwards. -/
def c7Oracle : LLMOracle := fun i _ =>
  if i = 0 then { output_text := "nope" }
  else { output_text := "\x7b\"a\": true\x7d" }

/-- Events that are neither attempts, backoffs, repair invocations,
post-repair attempts nor commits (executor calls and wait sleeps). -/
def quietEvs (evs : List Ev) : Prop :=
  attemptsOf evs = [] ∧ backoffsOf evs = [] ∧ repairCallsOf evs = [] ∧
  repairAttemptsOf evs = [] ∧ commitsOf evs = []

/-- A WEB step whose executor always fails, with a retry budget of 2. -/
def webFailStep : Step :=
  .mk ("web_f") .WEB ("g") [("task", .str ("t"))] [] [] { retries := 2 } .auto []

/-- First workflow step of the C6 counterexample: a WAIT step with id
"a" and empty schema. -/
def c6cStepA : Step := .mk ("a") .WAIT ("w") [] [] [] {} .auto []

/-- Second workflow step: a WEB step with id "b" whose executor always
fails. -/
def c6cStepB : Step :=
  .mk ("b") .WEB ("g") [("task", .str ("t"))] [] [] {} .auto []

/-- The replacement the repair hook swaps in for the failing step: a
WAIT step that reuses the already-committed id "a". -/
def c6cRepairA : Step :=
  .mk ("a") .WAIT ("w") [] [("waited_seconds", .number)] [] {} .auto []

/-- A two-step workflow with distinct step ids. -/
def c6cWf : Workflow := { steps := [c6cStepA, c6cStepB] }

/-- Executors that always fail plus a repair hook that renames the
failing step to the already-committed id. -/
def c6cOracles : Oracles where
  web_exec := fun _ _ => { result := .error (.mk ("web boom") none) }
  desktop_exec := fun _ _ => { result := .error (.mk ("desktop boom") none) }
  repair_hook := some (fun _ _ _ _ => { steps := [c6cStepA, c6cRepairA] })

/-! ## Rational arithmetic lemmas -/

theorem ratAdd_eq (q r : Rat) : ratAdd q r = q + r := by
  have hq : ((q.den : Rat)) ≠ 0 := Nat.cast_ne_zero.mpr q.den_nz
  have hr : ((r.den : Rat)) ≠ 0 := Nat.cast_ne_zero.mpr r.den_nz
  rw [ratAdd, Rat.mkRat_eq_div]
  conv_rhs => rw [← Rat.num_div_den q, ← Rat.num_div_den r]
  push_cast
  field_simp

theorem ratSub_eq (q r : Rat) : ratSub q r = q - r := by
  have hq : ((q.den : Rat)) ≠ 0 := Nat.cast_ne_zero.mpr q.den_nz
  have hr : ((r.den : Rat)) ≠ 0 := Nat.cast_ne_zero.mpr r.den_nz
  rw [ratSub, Rat.mkRat_eq_div]
  conv_rhs => rw [← Rat.num_div_den q, ← Rat.num_div_den r]
  push_cast
  field_simp
  ring

/-! ## Validation lemmas (C1, C8) -/

theorem coerceField_of_isOfType {t : VType} {v : TVal} (h : isOfType t v = true) :
    coerceField t v = some v := by
  cases t <;> cases v <;> simp_all [isOfType, coerceField]

theorem effectiveSchema_ne_nil {schema : List (String × VType)} (h : schema ≠ []) :
    effectiveSchema schema = schema := by
  cases schema with
  | nil => exact absurd rfl h
  | cons a l => rfl

theorem validateFields_typed (schema : List (String × VType))
    (raw : List (String × TVal))
    (htyped : ∀ k t v, (k, t) ∈ schema → dictGet raw k = some v → isOfType t v = true) :
    validateFields schema raw =
      .ok (schema.map (fun kt =>
        (kt.1, match dictGet raw kt.1 with
               | some v => v
               | none => kt.2.zero))) := by
  induction schema with
  | nil => rfl
  | cons kt rest ih =>
      obtain ⟨k, t⟩ := kt
      have hrest : ∀ k' t' v', (k', t') ∈ rest → dictGet raw k' = some v' →
          isOfType t' v' = true := by
        intro k' t' v' hm hg
        exact htyped k' t' v' (List.mem_cons_of_mem _ hm) hg
      cases hget : dictGet raw k with
      | some v =>
          simp [validateFields, hget, Except.map,
            coerceField_of_isOfType (htyped k t v (List.mem_cons_self _ _) hget),
            ih hrest]
      | none =>
          simp [validateFields, hget, Except.map, ih hrest]

theorem validateFields_err (schema : List (String × VType))
    (raw : List (String × TVal)) (k : String) (t : VType) (v : TVal)
    (hmem : (k, t) ∈ schema)
    (hpres : dictGet raw k = some v)
    (hbad : coerceField t v = none) :
    ∃ verr, validateFields schema raw = .error verr := by
  induction schema with
  | nil => cases hmem
  | cons kt rest ih =>
      obtain ⟨k', t'⟩ := kt
      rcases List.mem_cons.mp hmem with hhead | htail
      · have hk : k' = k := (Prod.mk.injEq .. ▸ hhead.symm).1
        have ht : t' = t := (Prod.mk.injEq .. ▸ hhead.symm).2
        subst hk; subst ht
        refine ⟨k' ++ ": input is not a valid " ++ reprStr t', ?_⟩
        simp [validateFields, hpres, hbad]
      · cases hget : dictGet raw k' with
        | some v' =>
            cases hco : coerceField t' v' with
            | some v'' =>
                obtain ⟨verr, hverr⟩ := ih htail
                refine ⟨verr, ?_⟩
                simp [validateFields, hget, hco, hverr, Except.map]
            | none =>
                refine ⟨k' ++ ": input is not a valid " ++ reprStr t', ?_⟩
                simp [validateFields, hget, hco]
        | none =>
            obtain ⟨verr, hverr⟩ := ih htail
            refine ⟨verr, ?_⟩
            simp [validateFields, hget, hverr, Except.map]

/-- C1 (counterexample): with an empty outputs_schema and a capability
returning an empty mapping, the committed mapping is \x7b"ok": ""\x7d, whose
key set is not the (empty) key set of outputs_schema — refuting the
claim's "including when outputs_schema is empty". -/
theorem C1_counterexample :
    validate_outputs emptySchemaStep (.dict []) = .ok [("ok", .str (""))] ∧
    emptySchemaStep.outputs_schema = [] ∧
    [("ok", TVal.str (""))].map Prod.fst ≠
      emptySchemaStep.outputs_schema.map Prod.fst :=
  ⟨rfl, rfl, by decide⟩

/-- C1 (amended): for every step with a NONEMPTY outputs_schema and every
returned mapping whose declared-and-present fields carry the declared
primitive types, the validated output is computed field-by-field from
outputs_schema — present declared fields kept as-is, absent declared
fields zero-defaulted, undeclared keys dropped — so its key sequence is
exactly that of outputs_schema.  (When outputs_schema is empty the code
instead validates against a synthetic one-field schema and commits
\x7b"ok": ...\x7d.) -/
theorem C1_validated_output_shape (step : Step) (raw : List (String × TVal))
    (hne : step.outputs_schema ≠ [])
    (htyped : ∀ k t v, (k, t) ∈ step.outputs_schema → dictGet raw k = some v →
      isOfType t v = true) :
    validate_outputs step (.dict raw) =
      .ok (step.outputs_schema.map (fun kt =>
        (kt.1, match dictGet raw kt.1 with
               | some v => v
               | none => kt.2.zero))) ∧
    (step.outputs_schema.map (fun kt =>
        (kt.1, match dictGet raw kt.1 with
               | some v => v
               | none => kt.2.zero))).map Prod.fst =
      step.outputs_schema.map Prod.fst := by
  constructor
  · rw [validate_outputs]
    rw [effectiveSchema_ne_nil hne, validateFields_typed _ _ htyped]
  · rw [List.map_map]
    rfl

/-- C1 (witness). -/
theorem C1_witness :
    validate_outputs geoStep (.dict [("lat", .num 3), ("junk", .bool true)]) =
      .ok [("front_app", .str ("")), ("lat", .num 3)] := by
  have h := (C1_validated_output_shape geoStep
    [("lat", .num 3), ("junk", .bool true)] (by decide)
    (by
      intro k t v hmem hget
      simp [geoStep, Step.outputs_schema] at hmem
      rcases hmem with ⟨hk, ht⟩ | ⟨hk, ht⟩ <;> subst hk <;> subst ht <;>
        simp [dictGet, List.lookup, geoStep] at hget
      subst hget
      rfl)).1
  exact h

/-- C8 (counterexample): a declared boolean field present with the float
1 — a value not of the declared primitive type — passes validation by
pydantic lax coercion (committed as true) instead of failing. -/
theorem C8_counterexample :
    isOfType .boolean (.num 1) = false ∧
    validate_outputs flagStep (.dict [("flag", .num 1)]) =
      .ok [("flag", .bool true)] :=
  ⟨rfl, rfl⟩

/-- C8 (amended): for every step whose capability returns a mapping with
a declared field whose value is neither of the declared primitive type
nor lax-coercible to it, output validation fails with an error naming
the step id, the declared field set of outputs_schema and the received
keys, and the failed attempt's body yields an error (so nothing is
committed for that attempt). -/
theorem C8_wrong_type_fails (step : Step) (raw : List (String × TVal))
    (k : String) (t : VType) (v : TVal)
    (hmem : (k, t) ∈ step.outputs_schema)
    (hpres : dictGet raw k = some v)
    (hbad : coerceField t v = none) :
    (∃ verr, validate_outputs step (.dict raw) =
      .error (.mk
        (validationErrMsg step.id (step.outputs_schema.map Prod.fst) (.dict raw) verr)
        (some (.mk verr none)))) ∧
    ∀ (O : Oracles) (st st' : EngineSt),
      dispatch O step st = (st', .ok (.dict raw)) →
      ∃ e, (attempt_body O step st).2 = .error e := by
  have hne : step.outputs_schema ≠ [] := List.ne_nil_of_mem hmem
  have heff : effectiveSchema step.outputs_schema = step.outputs_schema :=
    effectiveSchema_ne_nil hne
  obtain ⟨verr, hverr⟩ := validateFields_err step.outputs_schema raw k t v hmem hpres hbad
  have hvo : validate_outputs step (.dict raw) =
      .error (.mk
        (validationErrMsg step.id (step.outputs_schema.map Prod.fst) (.dict raw) verr)
        (some (.mk verr none))) := by
    rw [validate_outputs, heff, hverr]
  refine ⟨⟨verr, hvo⟩, ?_⟩
  intro O st st' hdisp
  rw [attempt_body, hdisp]
  by_cases htime : ratSub st'.now st.now > (step.policy.max_seconds : Rat)
  · simp only [htime, if_true]
    exact ⟨_, rfl⟩
  · simp only [htime, if_false]
    rw [hvo]
    exact ⟨_, rfl⟩

/-- C8 (witness). -/
theorem C8_witness :
    (∃ verr, validate_outputs flagStep (.dict [("flag", .null)]) =
      .error (.mk
        (validationErrMsg flagStep.id (flagStep.outputs_schema.map Prod.fst)
          (.dict [("flag", .null)]) verr)
        (some (.mk verr none)))) := by
  exact (C8_wrong_type_fails flagStep [("flag", .null)]
    ("flag") .boolean .null (by decide) rfl rfl).1

/-! ## WAIT semantics (C10) -/

/-- C10: for every WAIT step whose inputs lack a "seconds" key the engine
defaults to 1.0 — it sleeps 1.0 and reports waited_seconds = 1.0 — and
for a negative "seconds" value the sleep duration is clamped to 0 while
the reported waited_seconds is the unclamped negative value. -/
theorem C10_wait_semantics (O : Oracles) (step : Step) (st : EngineSt) (q : Rat)
    (hty : step.type = .WAIT) :
    (dictGet step.inputs ("seconds") = none →
      dispatch O step st =
        ({ pushEv st (.waitSleep 1) with now := ratAdd st.now 1 },
          .ok (.dict [("waited_seconds", .num 1)]))) ∧
    (dictGet step.inputs ("seconds") = some (.num q) → q < 0 →
      dispatch O step st =
        ({ pushEv st (.waitSleep 0) with now := ratAdd st.now 0 },
          .ok (.dict [("waited_seconds", .num q)]))) := by
  constructor
  · intro hnone
    have hmax : max (0 : Rat) 1 = 1 := by norm_num
    simp [dispatch, hty, waitBranch, dictGetD, hnone, pyFloat, hmax]
  · intro hsome hneg
    have hmax : max (0 : Rat) q = 0 := max_eq_left (le_of_lt hneg)
    simp [dispatch, hty, waitBranch, dictGetD, hsome, pyFloat, hmax]

/-- C10 (witness). -/
theorem C10_witness :
    dispatch idleOracles waitDefaultStep {} =
      ({ now := ratAdd 0 1, calls := 0, trace := [.waitSleep 1] },
        .ok (.dict [("waited_seconds", .num 1)])) ∧
    dispatch idleOracles waitNegStep {} =
      ({ now := ratAdd 0 0, calls := 0, trace := [.waitSleep 0] },
        .ok (.dict [("waited_seconds", .num (mkRat (-2) 1))])) :=
  ⟨(C10_wait_semantics idleOracles waitDefaultStep {} 0 rfl).1 rfl,
   (C10_wait_semantics idleOracles waitNegStep {} (mkRat (-2) 1) rfl).2 rfl (by decide)⟩

/-! ## Dispatch checks (C5) -/

/-- C5 (counterexample): after repair installs a WEB step with
executor_hint = desktop_ax and no inputs.task, the post-repair dispatch
attempt invokes the web capability anyway — the hint/required-input
checks are not performed on the post-repair attempt, refuting "on every
dispatch attempt (including the single post-repair attempt)". -/
theorem C5_counterexample :
    c5RepairedStep.type = .WEB ∧
    c5RepairedStep.executor_hint = .desktop_ax ∧
    dictHas c5RepairedStep.inputs ("task") = false ∧
    execCallsOf (orchestrator_run c5Oracles { steps := [c5OrigStep] } []).1.trace =
      [(.WEB, c5OrigStep), (.WEB, c5RepairedStep)] :=
  ⟨rfl, rfl, rfl, rfl⟩

/-- C5 (amended): on each of the retries+1 regular dispatch attempts the
engine checks executor_hint compatibility and structurally required
inputs before invoking the capability, and a violation fails fast as a
dispatch error with the engine state unchanged (no capability call, no
executor-call event); the single post-repair attempt, however, invokes
the capability for the step type directly, without re-performing these
checks. -/
theorem C5_checks_and_post_repair_skip (O : Oracles) (step : Step) (st : EngineSt) :
    ((step.type = .WEB → step.executor_hint ≠ .browser_use →
        step.executor_hint ≠ .auto →
      attempt_body O step st =
        (st, .error (.mk (step.id ++ ": WEB step must use executor_hint=browser_use/auto") none))) ∧
     (step.type = .WEB →
        (step.executor_hint = .browser_use ∨ step.executor_hint = .auto) →
        dictHas step.inputs ("task") = false →
      attempt_body O step st =
        (st, .error (.mk (step.id ++ ": WEB step.inputs.task is required") none))) ∧
     (step.type = .DESKTOP → step.executor_hint ≠ .desktop_ax →
        step.executor_hint ≠ .auto →
      attempt_body O step st =
        (st, .error (.mk (step.id ++ ": DESKTOP step must use executor_hint=desktop_ax/auto") none))) ∧
     (step.type = .DESKTOP →
        (step.executor_hint = .desktop_ax ∨ step.executor_hint = .auto) →
        dictHas step.inputs ("task") = false →
        dictHas step.inputs ("actions") = false →
      attempt_body O step st =
        (st, .error (.mk (step.id ++ ": DESKTOP needs inputs.task or inputs.actions") none)))) ∧
    ((step.type = .WEB →
        dispatchNoChecks O step st = callExec O.web_exec .WEB step st ∧
        (callExec O.web_exec .WEB step st).1.trace = st.trace ++ [.execCall .WEB step]) ∧
     (step.type = .DESKTOP →
        dispatchNoChecks O step st = callExec O.desktop_exec .DESKTOP step st ∧
        (callExec O.desktop_exec .DESKTOP step st).1.trace = st.trace ++ [.execCall .DESKTOP step])) := by
  refine ⟨⟨?_, ?_, ?_, ?_⟩, ⟨?_, ?_⟩⟩
  · intro hty h1 h2
    simp [attempt_body, dispatch, hty, h1, h2]
  · intro hty hh htask
    rcases hh with hh | hh <;>
      simp [attempt_body, dispatch, hty, hh, htask]
  · intro hty h1 h2
    simp [attempt_body, dispatch, hty, h1, h2]
  · intro hty hh htask hact
    rcases hh with hh | hh <;>
      simp [attempt_body, dispatch, hty, hh, htask, hact]
  · intro hty
    exact ⟨by simp [dispatchNoChecks, hty], rfl⟩
  · intro hty
    exact ⟨by simp [dispatchNoChecks, hty], rfl⟩

/-- C5 (witness). -/
theorem C5_witness :
    attempt_body c5Oracles c5RepairedStep {} =
      ({}, .error (.mk ("web_c5" ++ ": WEB step must use executor_hint=browser_use/auto") none)) ∧
    dispatchNoChecks c5Oracles c5RepairedStep {} = callExec c5Oracles.web_exec .WEB c5RepairedStep {} :=
  ⟨((C5_checks_and_post_repair_skip c5Oracles c5RepairedStep {}).1).1 rfl
      (by decide) (by decide),
   (((C5_checks_and_post_repair_skip c5Oracles c5RepairedStep {}).2).1 rfl).1⟩

/-! ## Strict-undefined rendering (C4) -/

theorem mapM_renderChunk_err {ctx : Ctx} {chunks : List Chunk} {p : List String}
    (hmem : Chunk.var p ∈ chunks) (hres : resolvePath ctx p = none) :
    ∃ e, chunks.mapM (renderChunk ctx) = (Except.error e : Except String (List String)) := by
  rw [← List.mapM'_eq_mapM]
  induction chunks with
  | nil => cases hmem
  | cons c rest ih =>
      rcases List.mem_cons.mp hmem with hc | hc
      · subst hc
        refine ⟨("'" ++ String.intercalate (".") p ++ "' is undefined"), ?_⟩
        simp only [List.mapM', renderChunk, hres]
        rfl
      · cases hfc : renderChunk ctx c with
        | error e =>
            refine ⟨e, ?_⟩
            simp only [List.mapM', hfc]
            rfl
        | ok out =>
            obtain ⟨e, he⟩ := ih hc
            refine ⟨e, ?_⟩
            simp only [List.mapM', hfc, he]
            rfl

theorem renderStrField_ok_iff {ctx : Ctx} {s out : String} :
    renderStrField ctx s = .ok out ↔ renderString ctx s = .ok out := by
  cases h : renderString ctx s <;> simp [renderStrField, h]

/-- Success of the value walk forces success of every string leaf. -/
theorem render_templates_ok_leaves (ctx : Ctx) :
    ∀ v : TVal, ∀ w, render_templates ctx v = .ok w →
      ∀ s ∈ strLeaves v, ∃ out, renderString ctx s = .ok out := by
  refine @TVal.rec
    (fun v => ∀ w, render_templates ctx v = .ok w →
      ∀ s ∈ strLeaves v, ∃ out, renderString ctx s = .ok out)
    (fun xs => ∀ ws, renderList ctx xs = .ok ws →
      ∀ s ∈ strLeavesList xs, ∃ out, renderString ctx s = .ok out)
    (fun xs => ∀ ws, renderDict ctx xs = .ok ws →
      ∀ s ∈ strLeavesDict xs, ∃ out, renderString ctx s = .ok out)
    (fun kv => ∀ w, render_templates ctx kv.2 = .ok w →
      ∀ s ∈ strLeaves kv.2, ∃ out, renderString ctx s = .ok out)
    ?_ ?_ ?_ ?_ ?_ ?_ ?_ ?_ ?_ ?_ ?_
  · intro s w hw s' hs'
    have hs'' : s' = s := by simpa [strLeaves] using hs'
    subst hs''
    cases h : renderString ctx s' with
    | ok out => exact ⟨out, rfl⟩
    | error e =>
        rw [render_templates] at hw
        rw [(by simp [renderStrField, h] : renderStrField ctx s' =
          .error (.mk ("Template render failed for '" ++ s' ++ "': " ++ e)
            (some (.mk e none))))] at hw
        cases hw
  · intro q w _ s hs
    simp [strLeaves] at hs
  · intro b w _ s hs
    simp [strLeaves] at hs
  · intro w _ s hs
    simp [strLeaves] at hs
  · intro xs ih w hw s hs
    rw [render_templates] at hw
    cases hls : renderList ctx xs with
    | error e => rw [hls] at hw; cases hw
    | ok ws =>
        rw [strLeaves] at hs
        exact ih ws hls s hs
  · intro xs ih w hw s hs
    rw [render_templates] at hw
    cases hds : renderDict ctx xs with
    | error e => rw [hds] at hw; cases hw
    | ok ws =>
        rw [strLeaves] at hs
        exact ih ws hds s hs
  · intro ws _ s hs
    simp [strLeavesList] at hs
  · intro v rest ihv ihrest ws hw s hs
    rw [renderList] at hw
    cases hv : render_templates ctx v with
    | error e => rw [hv] at hw; cases hw
    | ok v' =>
        rw [hv] at hw
        cases hrest : renderList ctx rest with
        | error e => rw [hrest] at hw; cases hw
        | ok ws' =>
            rw [strLeavesList] at hs
            rcases List.mem_append.mp hs with h | h
            · exact ihv v' hv s h
            · exact ihrest ws' hrest s h
  · intro ws _ s hs
    simp [strLeavesDict] at hs
  · intro kv rest ihkv ihrest ws hw s hs
    obtain ⟨k, v⟩ := kv
    rw [renderDict] at hw
    cases hv : render_templates ctx v with
    | error e => rw [hv] at hw; cases hw
    | ok v' =>
        rw [hv] at hw
        cases hrest : renderDict ctx rest with
        | error e => rw [hrest] at hw; cases hw
        | ok ws' =>
            rw [strLeavesDict] at hs
            rcases List.mem_append.mp hs with h | h
            · exact ihkv v' hv s h
            · exact ihrest ws' hrest s h
  · intro k v ih
    exact ih

/-- C4: template rendering is strict-undefined.  (1) Any template string
containing a reference that does not resolve in the context (a step not
yet committed, a misspelled field) renders to a hard error — so a
successful render never silently replaces a reference by an empty value;
(2) a successfully rendered step had every string of its goal, inputs
and postconditions render successfully; (3) non-string leaves pass
through rendering unchanged; (4) a step whose rendering fails is never
dispatched: run_step returns the error with the engine state untouched —
no capability call happens. -/
theorem C4_strict_undefined_rendering :
    (∀ (ctx : Ctx) (s : String) (chunks : List Chunk) (p : List String),
        parseTemplate s = .ok chunks → Chunk.var p ∈ chunks →
        resolvePath ctx p = none →
        ∃ e, renderString ctx s = .error e) ∧
    (∀ (ctx : Ctx) (step0 step1 : Step), render_step ctx step0 = .ok step1 →
        (∃ g, renderString ctx step0.goal = .ok g) ∧
        (∀ s ∈ strLeavesDict step0.inputs, ∃ out, renderString ctx s = .ok out) ∧
        (∀ s ∈ strLeavesList step0.postconditions, ∃ out, renderString ctx s = .ok out)) ∧
    (∀ (ctx : Ctx) (q : Rat), render_templates ctx (.num q) = .ok (.num q)) ∧
    (∀ (ctx : Ctx) (b : Bool), render_templates ctx (.bool b) = .ok (.bool b)) ∧
    (∀ (ctx : Ctx), render_templates ctx .null = .ok .null) ∧
    (∀ (O : Oracles) (wf : Workflow) (i : Nat) (step0 : Step) (ctx : Ctx)
        (st : EngineSt) (e : PyErr),
        render_step ctx step0 = .error e →
        run_step O wf i step0 ctx st = (st, .error e)) := by
  refine ⟨?_, ?_, ?_, ?_, ?_, ?_⟩
  · intro ctx s chunks p hparse hmem hres
    obtain ⟨e, he⟩ := mapM_renderChunk_err hmem hres
    refine ⟨e, ?_⟩
    simp only [renderString, hparse]
    rw [he]
    rfl
  · intro ctx step0 step1 hstep
    obtain ⟨id, ty, goal, ins, schema, posts, pol, hint, fbs⟩ := step0
    rw [render_step] at hstep
    cases hg : renderStrField ctx goal with
    | error e => rw [hg] at hstep; cases hstep
    | ok g =>
        rw [hg] at hstep
        cases hins : renderDict ctx ins with
        | error e => rw [hins] at hstep; cases hstep
        | ok ins' =>
            rw [hins] at hstep
            cases hposts : renderList ctx posts with
            | error e => rw [hposts] at hstep; cases hstep
            | ok posts' =>
                refine ⟨⟨g, renderStrField_ok_iff.mp hg⟩, ?_, ?_⟩
                · intro s hs
                  exact render_templates_ok_leaves ctx (.dict ins) (.dict ins')
                    (by simp [render_templates, hins, Except.map]) s hs
                · intro s hs
                  exact render_templates_ok_leaves ctx (.list posts) (.list posts')
                    (by simp [render_templates, hposts, Except.map]) s hs
  · intro ctx q
    rfl
  · intro ctx b
    rfl
  · intro ctx
    rfl
  · intro O wf i step0 ctx st e herr
    rw [run_step, herr]

/-- C4 (witness): referencing steps.x.y before step x committed is a hard
render error, and a number leaf passes through rendering unchanged. -/
theorem C4_witness :
    (∃ e, renderString [("user_text", .str ("pizza")), ("steps", .dict [])]
      ("\x7b\x7b steps.x.y \x7d\x7d") = .error e) ∧
    render_templates [] (.num 5) = .ok (.num 5) :=
  ⟨C4_strict_undefined_rendering.1
      [("user_text", .str ("pizza")), ("steps", .dict [])]
      ("\x7b\x7b steps.x.y \x7d\x7d") [.var ["steps", "x", "y"]]
      ["steps", "x", "y"] rfl (by decide) rfl,
   C4_strict_undefined_rendering.2.2.1 [] 5⟩

/-! ## Completion-client loop (C7) -/

theorem strContains_self_right (a s : String) : strContains (a ++ s) s :=
  ⟨a, "", by simp⟩

/-- The repair preamble embeds the validation error text. -/
theorem repairPreamble_contains_err (m : String) (extra : Option String)
    (t : String) : strContains (repairPreamble m extra t) m := by
  refine ⟨"Your previous output failed validation.\nValidation error:\n",
    "\n\nReturn ONLY corrected JSON that matches the schema.\n" ++
    (match extra with
     | some x => "\nExtra constraints:\n" ++ x ++ "\n"
     | none => "") ++
    (if t = "" then ""
     else "\nPrevious invalid output:\n" ++ t ++ "\n"), ?_⟩
  simp [repairPreamble, String.append_assoc]

/-- The repair preamble embeds the previous (stripped) invalid output —
when the previous output was empty, the empty string is trivially
embedded. -/
theorem repairPreamble_contains_text (m : String) (extra : Option String)
    (t : String) : strContains (repairPreamble m extra t) t := by
  by_cases ht : t = ""
  · subst ht
    exact ⟨"", repairPreamble m extra "", by simp⟩
  · refine ⟨"Your previous output failed validation.\nValidation error:\n" ++ m ++
      "\n\nReturn ONLY corrected JSON that matches the schema.\n" ++
      (match extra with
       | some x => "\nExtra constraints:\n" ++ x ++ "\n"
       | none => "") ++
      "\nPrevious invalid output:\n", "\n", ?_⟩
    simp [repairPreamble, ht, String.append_assoc]

/-- One attempt either succeeds — the loop returns the validator's
result immediately — or fails with some recorded error, the log gaining
exactly the one attempt whose request carries the preamble built from
the previous failure. -/
theorem call_json_attempt_spec (oracle : LLMOracle) (system : String)
    (user : UserContent) (schema_name : Option String) (schema : Option TVal)
    (validator : TVal → Except PyErr TVal) (extra : Option String)
    (prev : Option (PyErr × String)) (logs : List AttemptLog) :
    (∃ r text,
      call_json_attempt oracle system user schema_name schema validator extra prev logs =
        .inl (logs ++ [⟨mkReq system user schema_name schema (attemptPre extra prev),
          text, .ok r⟩], .ok r)) ∨
    (∃ err text,
      call_json_attempt oracle system user schema_name schema validator extra prev logs =
        .inr ((err, text), logs ++ [⟨mkReq system user schema_name schema (attemptPre extra prev),
          text, .error err⟩])) := by
  unfold call_json_attempt
  simp only []
  set resp := oracle logs.length (mkReq system user schema_name schema (attemptPre extra prev)) with hresp
  set lastText := stripStr resp.output_text with hlt
  cases hp : resp.output_parsed with
  | none =>
      cases hj : json_loads lastText with
      | error pe =>
          right
          exact ⟨.mk ("JSON parse failed: " ++ pe) none, lastText, rfl⟩
      | ok p =>
          cases p with
          | dict xs =>
              cases hv : validator (.dict xs) with
              | ok r => left; exact ⟨r, lastText, by simp only [hv]⟩
              | error e => right; exact ⟨e, lastText, by simp only [hv]⟩
          | str s => right; exact ⟨_, lastText, rfl⟩
          | num q => right; exact ⟨_, lastText, rfl⟩
          | bool b => right; exact ⟨_, lastText, rfl⟩
          | null => right; exact ⟨_, lastText, rfl⟩
          | list xs => right; exact ⟨_, lastText, rfl⟩
  | some p =>
      cases p with
      | dict xs =>
          cases hv : validator (.dict xs) with
          | ok r => left; exact ⟨r, lastText, by simp only [hv]⟩
          | error e => right; exact ⟨e, lastText, by simp only [hv]⟩
      | str s => right; exact ⟨_, lastText, rfl⟩
      | num q => right; exact ⟨_, lastText, rfl⟩
      | bool b => right; exact ⟨_, lastText, rfl⟩
      | null => right; exact ⟨_, lastText, rfl⟩
      | list xs => right; exact ⟨_, lastText, rfl⟩

/-- Full characterisation of the attempt loop, by induction on the
number of attempts left. -/
theorem call_json_go_spec (oracle : LLMOracle) (cfg : JSONCallConfig)
    (system : String) (user : UserContent) (schema_name : Option String)
    (schema : Option TVal) (validator : TVal → Except PyErr TVal)
    (extra : Option String) :
    ∀ (n : Nat) (prev : Option (PyErr × String)) (logs : List AttemptLog),
      1 ≤ n →
    ∃ new,
      (call_json_go oracle cfg system user schema_name schema validator extra
        n prev logs).1 = logs ++ new ∧
      1 ≤ new.length ∧ new.length ≤ n ∧
      (∀ l₀, new.head? = some l₀ →
        l₀.request = mkReq system user schema_name schema (attemptPre extra prev)) ∧
      wellChained user extra new ∧
      allButLastErr new ∧
      (∀ r, (call_json_go oracle cfg system user schema_name schema validator extra
          n prev logs).2 = .ok r →
        ∃ lg, new.getLast? = some lg ∧ lg.outcome = .ok r) ∧
      (∀ g, (call_json_go oracle cfg system user schema_name schema validator extra
          n prev logs).2 = .error g →
        new.length = n ∧ (∀ l ∈ new, ∃ e', l.outcome = .error e') ∧
        ∃ lg e, new.getLast? = some lg ∧ lg.outcome = .error e ∧
          g = .mk (guardrailMsg (cfg.retries + 1) e.msg) none) := by
  intro n
  induction n with
  | zero => intro prev logs h; exact absurd h (by decide)
  | succ m ih =>
      intro prev logs _
      rcases call_json_attempt_spec oracle system user schema_name schema validator
          extra prev logs with ⟨r, text, heq⟩ | ⟨err, text, heq⟩
      · -- the attempt succeeded: the loop returns immediately
        refine ⟨[⟨mkReq system user schema_name schema (attemptPre extra prev),
          text, .ok r⟩], ?_⟩
        rw [call_json_go, heq]
        refine ⟨rfl, by simp, by simp, ?_, trivial, trivial, ?_, ?_⟩
        · intro l₀ hl₀
          cases hl₀
          rfl
        · intro r' hr'
          cases hr'
          exact ⟨_, rfl, rfl⟩
        · intro g hg
          cases hg
      · -- the attempt failed: one more log entry, then the rest of the loop
        have hunfold : call_json_go oracle cfg system user schema_name schema
            validator extra (m + 1) prev logs =
          call_json_go oracle cfg system user schema_name schema validator extra
            m (some (err, text))
            (logs ++ [⟨mkReq system user schema_name schema (attemptPre extra prev),
              text, .error err⟩]) := by
          rw [call_json_go, heq]
        set log₀ : AttemptLog :=
          ⟨mkReq system user schema_name schema (attemptPre extra prev),
            text, .error err⟩ with hlog₀
        cases m with
        | zero =>
            -- budget exhausted: guardrail error carrying the last error
            refine ⟨[log₀], ?_⟩
            rw [hunfold, call_json_go]
            refine ⟨rfl, by simp, by simp, ?_, trivial, trivial, ?_, ?_⟩
            · intro l₀ hl₀
              cases hl₀
              rfl
            · intro r' hr'
              cases hr'
            · intro g hg
              cases hg
              exact ⟨rfl, by intro l hl; simp at hl; subst hl; exact ⟨err, rfl⟩,
                log₀, err, rfl, rfl, rfl⟩
        | succ m' =>
            obtain ⟨new', hlogs', hlen1', hlen2', hhead', hchain', hbutlast',
              hok', herr'⟩ := ih (some (err, text)) (logs ++ [log₀]) (by omega)
            refine ⟨log₀ :: new', ?_⟩
            rw [hunfold]
            have hchainedAux : wellChainedAux user extra log₀ new' := by
              cases hnew' : new' with
              | nil => trivial
              | cons l' ls' =>
                  constructor
                  · refine ⟨err, rfl, ?_⟩
                    have := hhead' l' (by rw [hnew']; rfl)
                    rw [this]
                    rfl
                  · have := hchain'
                    rw [hnew'] at this
                    exact this
            refine ⟨by rw [hlogs']; simp, by simp, ?_, ?_, hchainedAux, ?_, ?_, ?_⟩
            · simp
              omega
            · intro l₀ hl₀
              cases hl₀
              rfl
            · -- all but the last attempt failed
              cases hnew' : new' with
              | nil => trivial
              | cons l' ls' =>
                  exact ⟨⟨err, rfl⟩, hnew' ▸ hbutlast'⟩
            · intro r' hr'
              obtain ⟨lg, hlg, hout⟩ := hok' r' hr'
              refine ⟨lg, ?_, hout⟩
              cases hnew' : new' with
              | nil =>
                  rw [hnew'] at hlg
                  cases hlg
              | cons l' ls' =>
                  rw [hnew'] at hlg
                  rw [List.getLast?_cons_cons]
                  exact hlg
            · intro g hg
              obtain ⟨hlen, hall, lg, e, hlg, hout, hmsg⟩ := herr' g hg
              refine ⟨by simp [hlen], ?_, lg, e, ?_, hout, hmsg⟩
              · intro l hl
                rcases List.mem_cons.mp hl with hl | hl
                · subst hl
                  exact ⟨err, rfl⟩
                · exact hall l hl
              · cases hnew' : new' with
                | nil =>
                    rw [hnew'] at hlen
                    simp at hlen
                | cons l' ls' =>
                    rw [hnew'] at hlg
                    rw [List.getLast?_cons_cons]
                    exact hlg

/-- C7: a schema-guarded completion call performs at most retries+1
attempts; the first attempt submits the caller's content unmodified; on
parse failure, on a non-object result, or on the validator raising,
every following attempt is the repair resubmission of its predecessor —
its request prepends a preamble embedding the previous validation error
text and the previous (stripped) invalid output; all attempts before
the last one failed, and the first attempt whose validator succeeds ends
the loop with the validator's result; exhausting the budget yields the
guardrail error built from the last recorded error. -/
theorem C7_call_json_guardrail (oracle : LLMOracle) (cfg : JSONCallConfig)
    (system : String) (user : UserContent) (schema_name : Option String)
    (schema : Option TVal) (validator : TVal → Except PyErr TVal)
    (extra : Option String) (logs : List AttemptLog) (res : Except PyErr TVal)
    (h : call_json oracle cfg system user schema_name schema validator extra =
      (logs, res)) :
    (1 ≤ logs.length ∧ logs.length ≤ cfg.retries + 1) ∧
    (∀ l₀, logs.head? = some l₀ →
      l₀.request = mkReq system user schema_name schema ("")) ∧
    wellChained user extra logs ∧
    (∀ prevLog l, chainedFrom user extra prevLog l →
      ∃ e, prevLog.outcome = .error e ∧
        l.request.user = applyPreamble (repairPreamble e.msg extra prevLog.text) user ∧
        strContains (repairPreamble e.msg extra prevLog.text) e.msg ∧
        strContains (repairPreamble e.msg extra prevLog.text) prevLog.text) ∧
    allButLastErr logs ∧
    (∀ r, res = .ok r → ∃ lg, logs.getLast? = some lg ∧ lg.outcome = .ok r) ∧
    (∀ g, res = .error g →
      logs.length = cfg.retries + 1 ∧
      (∀ l ∈ logs, ∃ e', l.outcome = .error e') ∧
      ∃ lg e, logs.getLast? = some lg ∧ lg.outcome = .error e ∧
        g = .mk (guardrailMsg (cfg.retries + 1) e.msg) none) := by
  rw [call_json] at h
  obtain ⟨new, h1, hlen1, hlen2, hhead, hchain, hbutlast, hok, herr⟩ :=
    call_json_go_spec oracle cfg system user schema_name schema validator extra
      (cfg.retries + 1) none [] (by omega)
  have hfst : logs = new := by
    have := congrArg Prod.fst h
    simp only at this
    rw [← this, h1]
    rfl
  have hsnd : (call_json_go oracle cfg system user schema_name schema validator
      extra (cfg.retries + 1) none []).2 = res := by
    have := congrArg Prod.snd h
    simpa using this
  subst hfst
  refine ⟨⟨hlen1, hlen2⟩, hhead, hchain, ?_, hbutlast, ?_, ?_⟩
  · intro prevLog l hcf
    obtain ⟨e, hout, hreq⟩ := hcf
    exact ⟨e, hout, hreq, repairPreamble_contains_err e.msg extra prevLog.text,
      repairPreamble_contains_text e.msg extra prevLog.text⟩
  · intro r hr
    exact hok r (by rw [hsnd, hr])
  · intro g hg
    exact herr g (by rw [hsnd, hg])

/-- C7 (witness). -/
theorem C7_witness :
    ∃ lg, (call_json c7Oracle { retries := 1 } ("sys") (.str ("hi")) none none
        Except.ok none).1.getLast? = some lg ∧
      lg.outcome = .ok (.dict [("a", .bool true)]) := by
  have h := C7_call_json_guardrail c7Oracle { retries := 1 } ("sys") (.str ("hi"))
    none none Except.ok none _ _ rfl
  exact h.2.2.2.2.2.1 (.dict [("a", .bool true)]) rfl

/-! ## Engine trace machinery (C2, C3, C6) -/

theorem quietEvs_nil : quietEvs [] :=
  ⟨rfl, rfl, rfl, rfl, rfl⟩

theorem quietEvs_append {a b : List Ev} (ha : quietEvs a) (hb : quietEvs b) :
    quietEvs (a ++ b) := by
  obtain ⟨ha1, ha2, ha3, ha4, ha5⟩ := ha
  obtain ⟨hb1, hb2, hb3, hb4, hb5⟩ := hb
  refine ⟨?_, ?_, ?_, ?_, ?_⟩ <;>
    simp_all [attemptsOf, backoffsOf, repairCallsOf, repairAttemptsOf, commitsOf]

theorem quietEvs_execCall (k : StepType) (s : Step) : quietEvs [.execCall k s] :=
  ⟨rfl, rfl, rfl, rfl, rfl⟩

theorem quietEvs_waitSleep (q : Rat) : quietEvs [.waitSleep q] :=
  ⟨rfl, rfl, rfl, rfl, rfl⟩

/-- Dispatch (with checks) only records executor calls and sleeps. -/
theorem dispatch_quiet (O : Oracles) (step : Step) (st : EngineSt) :
    ∃ debris, (dispatch O step st).1.trace = st.trace ++ debris ∧ quietEvs debris := by
  obtain ⟨id, ty, goal, ins, schema, posts, pol, hint, fbs⟩ := step
  cases ty with
  | WEB =>
      rw [dispatch]
      simp only [Step.type]
      split
      · exact ⟨[], by simp, quietEvs_nil⟩
      · split
        · exact ⟨[], by simp, quietEvs_nil⟩
        · exact ⟨[.execCall .WEB _], rfl, quietEvs_execCall _ _⟩
  | DESKTOP =>
      rw [dispatch]
      simp only [Step.type]
      split
      · exact ⟨[], by simp, quietEvs_nil⟩
      · split
        · exact ⟨[], by simp, quietEvs_nil⟩
        · exact ⟨[.execCall .DESKTOP _], rfl, quietEvs_execCall _ _⟩
  | WAIT =>
      rw [dispatch]
      simp only [Step.type]
      rw [waitBranch]
      cases pyFloat (dictGetD (Step.inputs (.mk id .WAIT goal ins schema posts pol hint fbs)) ("seconds") (.num 1)) with
      | error e => exact ⟨[], by simp, quietEvs_nil⟩
      | ok secs => exact ⟨[.waitSleep (max 0 secs)], rfl, quietEvs_waitSleep _⟩

/-- The post-repair dispatch likewise. -/
theorem dispatchNoChecks_quiet (O : Oracles) (step : Step) (st : EngineSt) :
    ∃ debris, (dispatchNoChecks O step st).1.trace = st.trace ++ debris ∧
      quietEvs debris := by
  obtain ⟨id, ty, goal, ins, schema, posts, pol, hint, fbs⟩ := step
  cases ty with
  | WEB =>
      rw [dispatchNoChecks]
      exact ⟨[.execCall .WEB _], rfl, quietEvs_execCall _ _⟩
  | DESKTOP =>
      rw [dispatchNoChecks]
      exact ⟨[.execCall .DESKTOP _], rfl, quietEvs_execCall _ _⟩
  | WAIT =>
      rw [dispatchNoChecks]
      simp only [Step.type]
      rw [waitBranch]
      cases pyFloat (dictGetD (Step.inputs (.mk id .WAIT goal ins schema posts pol hint fbs)) ("seconds") (.num 1)) with
      | error e => exact ⟨[], by simp, quietEvs_nil⟩
      | ok secs => exact ⟨[.waitSleep (max 0 secs)], rfl, quietEvs_waitSleep _⟩

/-- The attempt body returns the dispatch state unchanged through the
timeout, dict, validation and verification checks. -/
theorem attempt_body_fst (O : Oracles) (step : Step) (st : EngineSt) :
    (attempt_body O step st).1 = (dispatch O step st).1 := by
  rw [attempt_body]
  rcases hd : dispatch O step st with ⟨st', r⟩
  cases r with
  | error e => rfl
  | ok raw =>
      dsimp only
      split
      · rfl
      · cases raw <;>
          first
          | rfl
          | (dsimp only; cases validate_outputs step _ <;> rfl)

theorem post_repair_body_fst (O : Oracles) (step : Step) (st : EngineSt) :
    (post_repair_body O step st).1 = (dispatchNoChecks O step st).1 := by
  rw [post_repair_body]
  rcases hd : dispatchNoChecks O step st with ⟨st', r⟩
  cases r with
  | error e => rfl
  | ok raw =>
      dsimp only
      cases validate_outputs step raw <;> rfl

theorem attempt_body_quiet (O : Oracles) (step : Step) (st : EngineSt) :
    ∃ debris, (attempt_body O step st).1.trace = st.trace ++ debris ∧
      quietEvs debris := by
  rw [attempt_body_fst]
  exact dispatch_quiet O step st

theorem post_repair_body_quiet (O : Oracles) (step : Step) (st : EngineSt) :
    ∃ debris, (post_repair_body O step st).1.trace = st.trace ++ debris ∧
      quietEvs debris := by
  rw [post_repair_body_fst]
  exact dispatchNoChecks_quiet O step st

theorem attemptsOf_append (a b : List Ev) :
    attemptsOf (a ++ b) = attemptsOf a ++ attemptsOf b :=
  List.filterMap_append ..

theorem backoffsOf_append (a b : List Ev) :
    backoffsOf (a ++ b) = backoffsOf a ++ backoffsOf b :=
  List.filterMap_append ..

theorem repairCallsOf_append (a b : List Ev) :
    repairCallsOf (a ++ b) = repairCallsOf a ++ repairCallsOf b :=
  List.filterMap_append ..

theorem repairAttemptsOf_append (a b : List Ev) :
    repairAttemptsOf (a ++ b) = repairAttemptsOf a ++ repairAttemptsOf b :=
  List.filterMap_append ..

theorem commitsOf_append (a b : List Ev) :
    commitsOf (a ++ b) = commitsOf a ++ commitsOf b :=
  List.filterMap_append ..

theorem attemptsOf_attempt (s : Step) : attemptsOf [.attemptStart s] = [s] := rfl
theorem attemptsOf_backoff (q : Rat) : attemptsOf [.backoff q] = [] := rfl
theorem backoffsOf_attempt (s : Step) : backoffsOf [.attemptStart s] = [] := rfl
theorem backoffsOf_backoff (q : Rat) : backoffsOf [.backoff q] = [q] := rfl
theorem repairCallsOf_attempt (s : Step) : repairCallsOf [.attemptStart s] = [] := rfl
theorem repairCallsOf_backoff (q : Rat) : repairCallsOf [.backoff q] = [] := rfl
theorem repairAttemptsOf_attempt (s : Step) : repairAttemptsOf [.attemptStart s] = [] := rfl
theorem repairAttemptsOf_backoff (q : Rat) : repairAttemptsOf [.backoff q] = [] := rfl
theorem commitsOf_attempt (s : Step) : commitsOf [.attemptStart s] = [] := rfl
theorem commitsOf_backoff (q : Rat) : commitsOf [.backoff q] = [] := rfl

/-- When every attempt fails, the attempt loop runs all n attempts on
the same (already-rendered) step, with a fixed 0.3s backoff between
consecutive attempts, and then enters the repair branch with the last
error; no commit and no repair events are produced by the loop itself. -/
theorem retry_loop_allfail (O : Oracles) (wfCur : Workflow) (i : Nat)
    (step : Step) (ctx : Ctx)
    (hfail : ∀ st, ∃ e, (attempt_body O step st).2 = .error e) :
    ∀ n st, ∃ stF e body,
      retry_loop O wfCur i step ctx (n + 1) st =
        repairBranch O wfCur i step ctx e stF ∧
      stF.trace = st.trace ++ body ∧
      attemptsOf body = List.replicate (n + 1) step ∧
      backoffsOf body = List.replicate n (mkRat 3 10) ∧
      repairCallsOf body = [] ∧
      repairAttemptsOf body = [] ∧
      commitsOf body = [] ∧
      (∃ stL, (attempt_body O step stL).2 = .error e) := by
  intro n
  induction n with
  | zero =>
      intro st
      set st₁ := pushEv st (.attemptStart step) with hst₁
      obtain ⟨e, he⟩ := hfail st₁
      rcases hab : attempt_body O step st₁ with ⟨st', r⟩
      have hr : r = .error e := by rw [hab] at he; exact he
      subst hr
      obtain ⟨debris, hdeb, hq⟩ := attempt_body_quiet O step st₁
      rw [hab] at hdeb
      obtain ⟨h1, h2, h3, h4, h5⟩ := hq
      refine ⟨st', e, [.attemptStart step] ++ debris, ?_, ?_, ?_, ?_, ?_, ?_, ?_, ?_⟩
      · rw [retry_loop, hab]
      · rw [hdeb, hst₁]
        simp [pushEv]
      · rw [attemptsOf_append, h1, attemptsOf_attempt]
        rfl
      · rw [backoffsOf_append, h2, backoffsOf_attempt]
        rfl
      · rw [repairCallsOf_append, h3, repairCallsOf_attempt]
        rfl
      · rw [repairAttemptsOf_append, h4, repairAttemptsOf_attempt]
        rfl
      · rw [commitsOf_append, h5, commitsOf_attempt]
        rfl
      · exact ⟨st₁, by rw [hab]⟩
  | succ m ih =>
      intro st
      set st₁ := pushEv st (.attemptStart step) with hst₁
      obtain ⟨e, he⟩ := hfail st₁
      rcases hab : attempt_body O step st₁ with ⟨st', r⟩
      have hr : r = .error e := by rw [hab] at he; exact he
      subst hr
      obtain ⟨debris, hdeb, hq⟩ := attempt_body_quiet O step st₁
      rw [hab] at hdeb
      set st₂ : EngineSt :=
        { pushEv st' (.backoff (mkRat 3 10)) with
          now := ratAdd st'.now (mkRat 3 10) } with hst₂
      obtain ⟨stF, eF, body, hloop, htr, ha, hb, hrc, hra, hc, hlast⟩ := ih st₂
      obtain ⟨h1, h2, h3, h4, h5⟩ := hq
      refine ⟨stF, eF,
        [.attemptStart step] ++ debris ++ [.backoff (mkRat 3 10)] ++ body,
        ?_, ?_, ?_, ?_, ?_, ?_, ?_, hlast⟩
      · rw [retry_loop, hab]
        exact hloop
      · rw [htr, hst₂]
        simp only [pushEv]
        rw [hdeb, hst₁]
        simp [pushEv]
      · rw [attemptsOf_append, attemptsOf_append, attemptsOf_append,
          h1, ha, attemptsOf_attempt, attemptsOf_backoff]
        rfl
      · rw [backoffsOf_append, backoffsOf_append, backoffsOf_append,
          h2, hb, backoffsOf_attempt, backoffsOf_backoff]
        rfl
      · rw [repairCallsOf_append, repairCallsOf_append, repairCallsOf_append,
          h3, hrc, repairCallsOf_attempt, repairCallsOf_backoff]
        rfl
      · rw [repairAttemptsOf_append, repairAttemptsOf_append, repairAttemptsOf_append,
          h4, hra, repairAttemptsOf_attempt, repairAttemptsOf_backoff]
        rfl
      · rw [commitsOf_append, commitsOf_append, commitsOf_append,
          h5, hc, commitsOf_attempt, commitsOf_backoff]
        rfl

/-- Rendering leaves id, type, schema, policy and hint untouched. -/
theorem render_step_preserves {ctx : Ctx} {step0 step1 : Step}
    (h : render_step ctx step0 = .ok step1) :
    step1.id = step0.id ∧ step1.type = step0.type ∧
    step1.outputs_schema = step0.outputs_schema ∧
    step1.policy = step0.policy ∧ step1.executor_hint = step0.executor_hint := by
  obtain ⟨id, ty, goal, ins, schema, posts, pol, hint, fbs⟩ := step0
  rw [render_step] at h
  cases hg : renderStrField ctx goal with
  | error e => rw [hg] at h; cases h
  | ok g =>
      rw [hg] at h
      cases hi : renderDict ctx ins with
      | error e => rw [hi] at h; cases h
      | ok ins' =>
          rw [hi] at h
          cases hp : renderList ctx posts with
          | error e => rw [hp] at h; cases h
          | ok posts' =>
              rw [hp] at h
              cases hf : renderFallbacks ctx fbs with
              | error e => rw [hf] at h; cases h
              | ok fbs' =>
                  rw [hf] at h
                  cases h
                  exact ⟨rfl, rfl, rfl, rfl, rfl⟩

/-- C2: for a step with policy.retries = r whose capability/validation
stage fails on every attempt, the engine performs exactly r+1 attempts —
all on the one step rendered before the first attempt (no re-render
between retries) — with a fixed 0.3s backoff between consecutive
attempts, before entering the repair branch; with no repair hook
configured, the run raises the last error. -/
theorem C2_retry_budget (O : Oracles) (wfCur : Workflow) (i : Nat)
    (step0 : Step) (ctx : Ctx) (st : EngineSt) (rstep : Step)
    (hrender : render_step ctx step0 = .ok rstep)
    (hfail : ∀ st', ∃ e, (attempt_body O rstep st').2 = .error e) :
    ∃ stF e body,
      run_step O wfCur i step0 ctx st = repairBranch O wfCur i rstep ctx e stF ∧
      stF.trace = st.trace ++ body ∧
      attemptsOf body = List.replicate (step0.policy.retries + 1) rstep ∧
      backoffsOf body = List.replicate step0.policy.retries (mkRat 3 10) ∧
      repairCallsOf body = [] ∧ repairAttemptsOf body = [] ∧ commitsOf body = [] ∧
      (O.repair_hook = none →
        run_step O wfCur i step0 ctx st = (stF, .error e)) := by
  have hpol : rstep.policy = step0.policy := (render_step_preserves hrender).2.2.2.1
  obtain ⟨stF, e, body, hloop, htr, ha, hb, hrc, hra, hc, _⟩ :=
    retry_loop_allfail O wfCur i rstep ctx hfail rstep.policy.retries st
  refine ⟨stF, e, body, ?_, htr, ?_, ?_, hrc, hra, hc, ?_⟩
  · rw [run_step, hrender]
    exact hloop
  · rw [← hpol]
    exact ha
  · rw [← hpol]
    exact hb
  · intro hnone
    have h2 : repairBranch O wfCur i rstep ctx e stF = (stF, .error e) := by
      rw [repairBranch, hnone]
    rw [run_step, hrender]
    exact hloop.trans h2

/-- C2 (witness): with retries = 2 and an always-failing executor, the
step is attempted exactly 3 times. -/
theorem C2_witness :
    ∃ stF e body,
      run_step idleOracles { steps := [webFailStep] } 0 webFailStep
          [("steps", .dict [])] {} =
        repairBranch idleOracles { steps := [webFailStep] } 0 webFailStep
          [("steps", .dict [])] e stF ∧
      stF.trace = EngineSt.trace {} ++ body ∧
      attemptsOf body = List.replicate 3 webFailStep ∧
      backoffsOf body = List.replicate 2 (mkRat 3 10) ∧
      repairCallsOf body = [] ∧ repairAttemptsOf body = [] ∧ commitsOf body = [] ∧
      (Oracles.repair_hook idleOracles = none →
        run_step idleOracles { steps := [webFailStep] } 0 webFailStep
          [("steps", .dict [])] {} = (stF, .error e)) :=
  C2_retry_budget idleOracles { steps := [webFailStep] } 0 webFailStep
    [("steps", .dict [])] {} webFailStep rfl
    (fun _ => ⟨.mk ("web boom") none, rfl⟩)

theorem attemptsOf_repairCall (w : Workflow) (s : Step) (m : String) (c : Ctx) :
    attemptsOf [.repairCall w s m c] = [] := rfl
theorem attemptsOf_repairAttempt (s : Step) :
    attemptsOf [.repairAttemptStart s] = [] := rfl
theorem repairCallsOf_repairCall (w : Workflow) (s : Step) (m : String) (c : Ctx) :
    repairCallsOf [.repairCall w s m c] = [(w, s, m, c)] := rfl
theorem repairCallsOf_repairAttempt (s : Step) :
    repairCallsOf [.repairAttemptStart s] = [] := rfl
theorem repairAttemptsOf_repairCall (w : Workflow) (s : Step) (m : String) (c : Ctx) :
    repairAttemptsOf [.repairCall w s m c] = [] := rfl
theorem repairAttemptsOf_repairAttempt (s : Step) :
    repairAttemptsOf [.repairAttemptStart s] = [s] := rfl
theorem commitsOf_repairCall (w : Workflow) (s : Step) (m : String) (c : Ctx) :
    commitsOf [.repairCall w s m c] = [] := rfl
theorem commitsOf_repairAttempt (s : Step) :
    commitsOf [.repairAttemptStart s] = [] := rfl
theorem commitsOf_commit (id : String) (outs : List (String × TVal)) :
    commitsOf [.commitEv id outs] = [(id, outs)] := rfl
theorem attemptsOf_commit (id : String) (outs : List (String × TVal)) :
    attemptsOf [.commitEv id outs] = [] := rfl
theorem repairCallsOf_commit (id : String) (outs : List (String × TVal)) :
    repairCallsOf [.commitEv id outs] = [] := rfl
theorem repairAttemptsOf_commit (id : String) (outs : List (String × TVal)) :
    repairAttemptsOf [.commitEv id outs] = [] := rfl
theorem backoffsOf_commit (id : String) (outs : List (String × TVal)) :
    backoffsOf [.commitEv id outs] = [] := rfl

/-- C3: once the retry budget is exhausted on a step that fails
deterministically and a repair hook is configured, the engine invokes
the hook exactly once with (current workflow, failing rendered step,
error text, context), re-renders the replacement step taken from the
returned workflow at the same index, and performs exactly one
additional attempt; on success its outputs are committed under the
replacement's id, while a post-repair failure aborts the run with an
error carrying the originating pre-repair error as cause; in either
case no further attempts and no further repair invocations occur for
the step. -/
theorem C3_repair_exactly_once (O : Oracles) (wfCur : Workflow) (i : Nat)
    (step0 : Step) (ctx : Ctx) (st : EngineSt) (rstep : Step)
    (hook : Workflow → Step → String → Ctx → Workflow) (efix : PyErr)
    (s0' step' : Step)
    (hrender : render_step ctx step0 = .ok rstep)
    (hfail : ∀ st', (attempt_body O rstep st').2 = .error efix)
    (hhook : O.repair_hook = some hook)
    (hidx : (hook wfCur rstep efix.msg ctx).steps[i]? = some s0')
    (hre : render_step ctx s0' = .ok step') :
    ∃ stF,
      run_step O wfCur i step0 ctx st =
        repairBranch O wfCur i rstep ctx efix stF ∧
      ∀ stP r,
        post_repair_body O step'
          (pushEv (pushEv stF (.repairCall wfCur rstep efix.msg ctx))
            (.repairAttemptStart step')) = (stP, r) →
        (∀ outs, r = .ok outs →
          run_step O wfCur i step0 ctx st =
            (pushEv stP (.commitEv step'.id outs),
              .ok (ctxCommit ctx step'.id outs, hook wfCur rstep efix.msg ctx))) ∧
        (∀ e2, r = .error e2 →
          run_step O wfCur i step0 ctx st = (stP, .error (.mk e2.msg (some efix)))) ∧
        repairCallsOf stP.trace =
          repairCallsOf st.trace ++ [(wfCur, rstep, efix.msg, ctx)] ∧
        repairAttemptsOf stP.trace = repairAttemptsOf st.trace ++ [step'] ∧
        attemptsOf stP.trace =
          attemptsOf st.trace ++ List.replicate (step0.policy.retries + 1) rstep := by
  have hpol : rstep.policy = step0.policy := (render_step_preserves hrender).2.2.2.1
  obtain ⟨stF, e, body, hloop, htr, ha, hb, hrc, hra, hc, stL, hL⟩ :=
    retry_loop_allfail O wfCur i rstep ctx (fun st' => ⟨efix, hfail st'⟩)
      rstep.policy.retries st
  have he : e = efix := by
    have := hfail stL
    rw [hL] at this
    exact Except.error.inj this
  subst he
  have hrun : run_step O wfCur i step0 ctx st =
      repairBranch O wfCur i rstep ctx e stF := by
    rw [run_step, hrender]
    exact hloop
  refine ⟨stF, hrun, ?_⟩
  intro stP r hpr
  set st₂ : EngineSt :=
    pushEv (pushEv stF (.repairCall wfCur rstep e.msg ctx))
      (.repairAttemptStart step') with hst₂
  have hrb : repairBranch O wfCur i rstep ctx e stF =
      (match post_repair_body O step' st₂ with
       | (st', .ok outs) =>
           (pushEv st' (.commitEv step'.id outs),
             .ok (ctxCommit ctx step'.id outs, hook wfCur rstep e.msg ctx))
       | (st', .error e2) => (st', .error (e2.setCause e))) := by
    rw [repairBranch]
    simp only [hhook, hidx, hre]
  have hfst : (post_repair_body O step' st₂).1 = stP := by rw [hpr]
  obtain ⟨debris, hdeb, q1, q2, q3, q4, q5⟩ := post_repair_body_quiet O step' st₂
  have htrP : stP.trace = st₂.trace ++ debris := by
    rw [← hfst]
    exact hdeb
  have htrP' : stP.trace = st.trace ++ body ++
      [Ev.repairCall wfCur rstep e.msg ctx] ++ [Ev.repairAttemptStart step'] ++
      debris := by
    rw [htrP, hst₂]
    simp only [pushEv]
    rw [htr]
  refine ⟨?_, ?_, ?_, ?_, ?_⟩
  · intro outs houts
    subst houts
    rw [hrun, hrb, hpr]
  · intro e2 he2
    subst he2
    rw [hrun, hrb, hpr]
    rfl
  · rw [htrP']
    rw [repairCallsOf_append, repairCallsOf_append, repairCallsOf_append,
      repairCallsOf_append, hrc, q3,
      repairCallsOf_repairCall, repairCallsOf_repairAttempt]
    simp
  · rw [htrP']
    rw [repairAttemptsOf_append, repairAttemptsOf_append, repairAttemptsOf_append,
      repairAttemptsOf_append, hra, q4,
      repairAttemptsOf_repairCall, repairAttemptsOf_repairAttempt]
    simp
  · rw [htrP']
    rw [attemptsOf_append, attemptsOf_append, attemptsOf_append,
      attemptsOf_append, ha, q1,
      attemptsOf_repairCall, attemptsOf_repairAttempt]
    rw [hpol]
    simp

/-- C3 (witness). -/
theorem C3_witness :
    ∃ stF,
      run_step c5Oracles { steps := [c5OrigStep] } 0 c5OrigStep
          [("steps", .dict [])] {} =
        repairBranch c5Oracles { steps := [c5OrigStep] } 0 c5OrigStep
          [("steps", .dict [])] (.mk ("web boom") none) stF ∧
      ∀ stP r,
        post_repair_body c5Oracles c5RepairedStep
          (pushEv (pushEv stF (.repairCall { steps := [c5OrigStep] } c5OrigStep
              (PyErr.msg (.mk ("web boom") none)) [("steps", .dict [])]))
            (.repairAttemptStart c5RepairedStep)) = (stP, r) →
        (∀ outs, r = .ok outs →
          run_step c5Oracles { steps := [c5OrigStep] } 0 c5OrigStep
              [("steps", .dict [])] {} =
            (pushEv stP (.commitEv c5RepairedStep.id outs),
              .ok (ctxCommit [("steps", .dict [])] c5RepairedStep.id outs,
                { steps := [c5RepairedStep] }))) ∧
        (∀ e2, r = .error e2 →
          run_step c5Oracles { steps := [c5OrigStep] } 0 c5OrigStep
              [("steps", .dict [])] {} =
            (stP, .error (.mk e2.msg (some (.mk ("web boom") none))))) ∧
        repairCallsOf stP.trace =
          repairCallsOf (EngineSt.trace {}) ++
            [({ steps := [c5OrigStep] }, c5OrigStep,
              PyErr.msg (.mk ("web boom") none), [("steps", .dict [])])] ∧
        repairAttemptsOf stP.trace =
          repairAttemptsOf (EngineSt.trace {}) ++ [c5RepairedStep] ∧
        attemptsOf stP.trace =
          attemptsOf (EngineSt.trace {}) ++
            List.replicate (c5OrigStep.policy.retries + 1) c5OrigStep :=
  C3_repair_exactly_once c5Oracles { steps := [c5OrigStep] } 0 c5OrigStep
    [("steps", .dict [])] {} c5OrigStep
    (fun _ _ _ _ => { steps := [c5RepairedStep] }) (.mk ("web boom") none)
    c5RepairedStep c5RepairedStep rfl (fun _ => rfl) rfl rfl rfl

/-! ## Dictionary and rendering lemmas; C6 and C9 -/

theorem dictGet_cons (k k' : String) (v' : TVal) (d : List (String × TVal)) :
    dictGet ((k', v') :: d) k = if k = k' then some v' else dictGet d k := by
  rw [dictGet, dictGet, List.lookup]
  by_cases h : k = k'
  · simp [h]
  · rw [beq_false_of_ne h]
    simp [h]

theorem dictGet_eq_none {d : List (String × TVal)} {k : String}
    (h : k ∉ d.map Prod.fst) : dictGet d k = none := by
  induction d with
  | nil => rfl
  | cons kv rest ih =>
      obtain ⟨k', v'⟩ := kv
      rw [dictGet_cons]
      simp only [List.map_cons, List.mem_cons] at h
      push_neg at h
      rw [if_neg h.1]
      exact ih h.2

theorem dictHas_eq_false {d : List (String × TVal)} {k : String}
    (h : k ∉ d.map Prod.fst) : dictHas d k = false := by
  rw [dictHas, dictGet_eq_none h]
  rfl

theorem dictSet_fresh {d : List (String × TVal)} {k : String} (v : TVal)
    (h : k ∉ d.map Prod.fst) : dictSet d k v = d ++ [(k, v)] := by
  rw [dictSet, dictHas_eq_false h]
  simp

theorem dictGet_append (d e : List (String × TVal)) (k : String) :
    dictGet (d ++ e) k =
      match dictGet d k with
      | some v => some v
      | none => dictGet e k := by
  induction d with
  | nil => rfl
  | cons kv rest ih =>
      obtain ⟨k', v'⟩ := kv
      rw [List.cons_append, dictGet_cons, dictGet_cons]
      by_cases h : k = k'
      · rw [if_pos h, if_pos h]
      · rw [if_neg h, if_neg h, ih]

theorem dictGet_map_set_self {d : List (String × TVal)} {k : String} (v : TVal)
    (h : dictHas d k = true) :
    dictGet (d.map (fun kv => if kv.1 = k then (k, v) else kv)) k = some v := by
  induction d with
  | nil => exact Bool.noConfusion h
  | cons kv rest ih =>
      obtain ⟨a, b⟩ := kv
      by_cases ha : a = k
      · simp only [List.map_cons, if_pos ha]
        rw [dictGet_cons, if_pos rfl]
      · simp only [List.map_cons, if_neg ha]
        rw [dictGet_cons, if_neg (fun he => ha he.symm)]
        apply ih
        rw [dictHas, dictGet_cons, if_neg (fun he => ha he.symm)] at h
        exact h

theorem dictGet_dictSet_self (d : List (String × TVal)) (k : String) (v : TVal) :
    dictGet (dictSet d k v) k = some v := by
  rw [dictSet]
  by_cases h : dictHas d k = true
  · rw [if_pos h]
    exact dictGet_map_set_self v h
  · rw [if_neg h, dictGet_append]
    have hn : dictGet d k = none := by
      rw [dictHas] at h
      cases hg : dictGet d k
      · rfl
      · rw [hg] at h; exact absurd rfl h
    rw [hn]
    show dictGet [(k, v)] k = some v
    rw [dictGet_cons, if_pos rfl]

theorem dictGet_dictSet_ne (d : List (String × TVal)) (k k' : String) (v : TVal)
    (h : k' ≠ k) : dictGet (dictSet d k v) k' = dictGet d k' := by
  rw [dictSet]
  by_cases hb : dictHas d k = true
  · rw [if_pos hb]
    clear hb
    induction d with
    | nil => rfl
    | cons kv rest ih =>
        obtain ⟨a, b⟩ := kv
        by_cases ha : a = k
        · simp only [List.map_cons, if_pos ha]
          rw [dictGet_cons, if_neg h, dictGet_cons,
            if_neg (fun he => h (he.trans ha)), ih]
        · simp only [List.map_cons, if_neg ha]
          rw [dictGet_cons, dictGet_cons]
          by_cases hk : k' = a
          · rw [if_pos hk, if_pos hk]
          · rw [if_neg hk, if_neg hk, ih]
  · rw [if_neg hb, dictGet_append]
    cases hg : dictGet d k' with
    | none =>
        show dictGet [(k, v)] k' = none
        rw [dictGet_cons, if_neg h]
        rfl
    | some u => rfl

theorem dictKeys_dictSet_fresh {d : List (String × TVal)} {k : String} (v : TVal)
    (h : k ∉ d.map Prod.fst) :
    (dictSet d k v).map Prod.fst = d.map Prod.fst ++ [k] := by
  rw [dictSet_fresh v h, List.map_append]
  rfl

theorem ctxCommit_get {ctx : Ctx} {d : List (String × TVal)}
    (hctx : dictGet ctx ("steps") = some (.dict d)) (id : String)
    (outs : List (String × TVal)) :
    dictGet (ctxCommit ctx id outs) ("steps") =
      some (.dict (dictSet d id (.dict outs))) := by
  rw [ctxCommit, hctx]
  exact dictGet_dictSet_self ..

theorem not_mem_take_of_nodup {l : List String} {k : Nat} {a : String}
    (hnd : l.Nodup) (hk : l[k]? = some a) : a ∉ l.take k := by
  intro hmem
  have hsplit : l.take k ++ l.drop k = l := List.take_append_drop k l
  have hnd' : (l.take k ++ l.drop k).Nodup := by rw [hsplit]; exact hnd
  rw [List.nodup_append] at hnd'
  have hdrop : a ∈ l.drop k := by
    have h0 : (l.drop k)[0]? = some a := by
      rw [List.getElem?_drop]
      simpa using hk
    exact List.getElem?_mem h0
  exact hnd'.2.2 hmem hdrop

/-- The trailing-newline strip in action: a template source ending in a
newline renders without it, as env.from_string renders "a\n" to "a"
under keep_trailing_newline=False. -/
theorem renderString_strips_trailing_newline :
    renderString [] ("a\n") = .ok ("a") := rfl

theorem commitsOf_quiet {evs : List Ev} (h : quietEvs evs) : commitsOf evs = [] :=
  h.2.2.2.2

theorem getElem?_map_id_eq {l₁ l₂ : List Step} (h : l₁.map Step.id = l₂.map Step.id)
    (i : Nat) : l₁[i]?.map Step.id = l₂[i]?.map Step.id := by
  rw [← List.getElem?_map, ← List.getElem?_map, h]

theorem repairBranch_commits (O : Oracles) (wfCur : Workflow) (i : Nat)
    (step : Step) (ctx : Ctx) (e : PyErr) (st : EngineSt)
    (hhook : ∀ h, O.repair_hook = some h →
      ∀ w s m c, ((h w s m c).steps.map Step.id) = w.steps.map Step.id)
    (hidx : ∀ s', wfCur.steps[i]? = some s' → s'.id = step.id) :
    ∃ body, (repairBranch O wfCur i step ctx e st).1.trace = st.trace ++ body ∧
      (∀ ctx' wf', (repairBranch O wfCur i step ctx e st).2 = .ok (ctx', wf') →
        (∃ outs, commitsOf body = [(step.id, outs)] ∧
          ctx' = ctxCommit ctx step.id outs) ∧
        wf'.steps.map Step.id = wfCur.steps.map Step.id) ∧
      (∀ e2, (repairBranch O wfCur i step ctx e st).2 = .error e2 →
        commitsOf body = []) := by
  cases hh : O.repair_hook with
  | none =>
      have hrb : repairBranch O wfCur i step ctx e st = (st, .error e) := by
        rw [repairBranch, hh]
      refine ⟨[], ?_, ?_, ?_⟩
      · rw [hrb]; simp
      · intro ctx' wf' hok
        rw [hrb] at hok
        cases hok
      · intro e2 _
        rfl
  | some h =>
      have hpres := hhook h hh
      cases hstep : (h wfCur step e.msg ctx).steps[i]? with
      | none =>
          have hrb : repairBranch O wfCur i step ctx e st =
              (pushEv st (.repairCall wfCur step e.msg ctx),
                .error (.mk ("IndexError: list index out of range") none)) := by
            rw [repairBranch, hh]
            simp only [hstep]
          refine ⟨[.repairCall wfCur step e.msg ctx], ?_, ?_, ?_⟩
          · rw [hrb]; rfl
          · intro ctx' wf' hok
            rw [hrb] at hok
            cases hok
          · intro e2 _
            rfl
      | some step0' =>
          cases hre : render_step ctx step0' with
          | error re =>
              have hrb : repairBranch O wfCur i step ctx e st =
                  (pushEv st (.repairCall wfCur step e.msg ctx), .error re) := by
                rw [repairBranch, hh]
                simp only [hstep, hre]
              refine ⟨[.repairCall wfCur step e.msg ctx], ?_, ?_, ?_⟩
              · rw [hrb]; rfl
              · intro ctx' wf' hok
                rw [hrb] at hok
                cases hok
              · intro e2 _
                rfl
          | ok step' =>
              have hid : step'.id = step.id := by
                have h1 := getElem?_map_id_eq (hpres wfCur step e.msg ctx) i
                rw [hstep] at h1
                cases hc : wfCur.steps[i]? with
                | none => rw [hc] at h1; cases h1
                | some s' =>
                    rw [hc] at h1
                    have h2 : step0'.id = s'.id := Option.some.inj h1
                    rw [(render_step_preserves hre).1, h2, hidx s' hc]
              set st₂ : EngineSt :=
                pushEv (pushEv st (.repairCall wfCur step e.msg ctx))
                  (.repairAttemptStart step') with hst₂
              obtain ⟨debris, hdeb, hq⟩ := post_repair_body_quiet O step' st₂
              rcases hpb : post_repair_body O step' st₂ with ⟨stP, r⟩
              rw [hpb] at hdeb
              have hrb : repairBranch O wfCur i step ctx e st =
                  (match post_repair_body O step' st₂ with
                   | (st', .ok outs) =>
                       (pushEv st' (.commitEv step'.id outs),
                         .ok (ctxCommit ctx step'.id outs, h wfCur step e.msg ctx))
                   | (st', .error e2) => (st', .error (e2.setCause e))) := by
                rw [repairBranch, hh]
                simp only [hstep, hre]
              rw [hpb] at hrb
              cases r with
              | ok outs =>
                  refine ⟨[.repairCall wfCur step e.msg ctx] ++
                    [.repairAttemptStart step'] ++ debris ++
                    [.commitEv step'.id outs], ?_, ?_, ?_⟩
                  · rw [hrb]
                    simp only [pushEv]
                    rw [hdeb, hst₂]
                    simp [pushEv]
                  · intro ctx' wf' hok
                    rw [hrb] at hok
                    cases hok
                    refine ⟨⟨outs, ?_, ?_⟩, hpres wfCur step e.msg ctx⟩
                    · rw [commitsOf_append, commitsOf_append, commitsOf_append,
                        commitsOf_repairCall, commitsOf_repairAttempt,
                        commitsOf_quiet hq, commitsOf_commit, hid]
                      rfl
                    · rw [hid]
                  · intro e2 habs
                    rw [hrb] at habs
                    cases habs
              | error e2 =>
                  refine ⟨[.repairCall wfCur step e.msg ctx] ++
                    [.repairAttemptStart step'] ++ debris, ?_, ?_, ?_⟩
                  · rw [hrb]
                    rw [hdeb, hst₂]
                    simp [pushEv]
                  · intro ctx' wf' hok
                    rw [hrb] at hok
                    cases hok
                  · intro e3 _
                    rw [commitsOf_append, commitsOf_append,
                      commitsOf_repairCall, commitsOf_repairAttempt,
                      commitsOf_quiet hq]
                    rfl

theorem retry_loop_commits (O : Oracles) (wfCur : Workflow) (i : Nat)
    (step : Step) (ctx : Ctx)
    (hhook : ∀ h, O.repair_hook = some h →
      ∀ w s m c, ((h w s m c).steps.map Step.id) = w.steps.map Step.id)
    (hidx : ∀ s', wfCur.steps[i]? = some s' → s'.id = step.id) :
    ∀ n st, ∃ body,
      (retry_loop O wfCur i step ctx (n + 1) st).1.trace = st.trace ++ body ∧
      (∀ ctx' wf', (retry_loop O wfCur i step ctx (n + 1) st).2 = .ok (ctx', wf') →
        (∃ outs, commitsOf body = [(step.id, outs)] ∧
          ctx' = ctxCommit ctx step.id outs) ∧
        wf'.steps.map Step.id = wfCur.steps.map Step.id) ∧
      (∀ e, (retry_loop O wfCur i step ctx (n + 1) st).2 = .error e →
        commitsOf body = []) := by
  intro n
  induction n with
  | zero =>
      intro st
      set st₁ := pushEv st (.attemptStart step) with hst₁
      obtain ⟨debris, hdeb, hq⟩ := attempt_body_quiet O step st₁
      rcases hab : attempt_body O step st₁ with ⟨st', r⟩
      rw [hab] at hdeb
      have hloop : retry_loop O wfCur i step ctx (0 + 1) st =
          (match attempt_body O step st₁ with
           | (st', .ok outs) =>
               (pushEv st' (.commitEv step.id outs),
                 .ok (ctxCommit ctx step.id outs, wfCur))
           | (st', .error e) => repairBranch O wfCur i step ctx e st') := by
        rw [retry_loop]
      rw [hab] at hloop
      cases r with
      | ok outs =>
          refine ⟨[.attemptStart step] ++ debris ++ [.commitEv step.id outs],
            ?_, ?_, ?_⟩
          · rw [hloop]
            simp only [pushEv]
            rw [hdeb, hst₁]
            simp [pushEv]
          · intro ctx' wf' hok
            rw [hloop] at hok
            cases hok
            refine ⟨⟨outs, ?_, rfl⟩, rfl⟩
            rw [commitsOf_append, commitsOf_append, commitsOf_attempt,
              commitsOf_quiet hq, commitsOf_commit]
            rfl
          · intro e habs
            rw [hloop] at habs
            cases habs
      | error e =>
          obtain ⟨bodyR, htrR, hokR, herrR⟩ :=
            repairBranch_commits O wfCur i step ctx e st' hhook hidx
          refine ⟨[.attemptStart step] ++ debris ++ bodyR, ?_, ?_, ?_⟩
          · rw [hloop, htrR, hdeb, hst₁]
            simp [pushEv]
          · intro ctx' wf' hok
            rw [hloop] at hok
            obtain ⟨⟨outs, hco, hcc⟩, hw⟩ := hokR ctx' wf' hok
            refine ⟨⟨outs, ?_, hcc⟩, hw⟩
            rw [commitsOf_append, commitsOf_append, commitsOf_attempt,
              commitsOf_quiet hq, hco]
            rfl
          · intro e2 herr
            rw [hloop] at herr
            rw [commitsOf_append, commitsOf_append, commitsOf_attempt,
              commitsOf_quiet hq, herrR e2 herr]
            rfl
  | succ m ih =>
      intro st
      set st₁ := pushEv st (.attemptStart step) with hst₁
      obtain ⟨debris, hdeb, hq⟩ := attempt_body_quiet O step st₁
      rcases hab : attempt_body O step st₁ with ⟨st', r⟩
      rw [hab] at hdeb
      have hloop : retry_loop O wfCur i step ctx (m + 1 + 1) st =
          (match attempt_body O step st₁ with
           | (st', .ok outs) =>
               (pushEv st' (.commitEv step.id outs),
                 .ok (ctxCommit ctx step.id outs, wfCur))
           | (st', .error _e) =>
               retry_loop O wfCur i step ctx (m + 1)
                 { pushEv st' (.backoff (mkRat 3 10)) with
                   now := ratAdd st'.now (mkRat 3 10) }) := by
        rw [retry_loop]
      rw [hab] at hloop
      cases r with
      | ok outs =>
          refine ⟨[.attemptStart step] ++ debris ++ [.commitEv step.id outs],
            ?_, ?_, ?_⟩
          · rw [hloop]
            simp only [pushEv]
            rw [hdeb, hst₁]
            simp [pushEv]
          · intro ctx' wf' hok
            rw [hloop] at hok
            cases hok
            refine ⟨⟨outs, ?_, rfl⟩, rfl⟩
            rw [commitsOf_append, commitsOf_append, commitsOf_attempt,
              commitsOf_quiet hq, commitsOf_commit]
            rfl
          · intro e habs
            rw [hloop] at habs
            cases habs
      | error e =>
          set st₂ : EngineSt :=
            { pushEv st' (.backoff (mkRat 3 10)) with
              now := ratAdd st'.now (mkRat 3 10) } with hst₂
          obtain ⟨bodyI, htrI, hokI, herrI⟩ := ih st₂
          refine ⟨[.attemptStart step] ++ debris ++ [.backoff (mkRat 3 10)] ++
            bodyI, ?_, ?_, ?_⟩
          · rw [hloop, htrI, hst₂]
            simp only [pushEv]
            rw [hdeb, hst₁]
            simp [pushEv]
          · intro ctx' wf' hok
            rw [hloop] at hok
            obtain ⟨⟨outs, hco, hcc⟩, hw⟩ := hokI ctx' wf' hok
            refine ⟨⟨outs, ?_, hcc⟩, hw⟩
            rw [commitsOf_append, commitsOf_append, commitsOf_append,
              commitsOf_attempt, commitsOf_quiet hq, commitsOf_backoff, hco]
            rfl
          · intro e2 herr
            rw [hloop] at herr
            rw [commitsOf_append, commitsOf_append, commitsOf_append,
              commitsOf_attempt, commitsOf_quiet hq, commitsOf_backoff,
              herrI e2 herr]
            rfl

theorem run_step_commits (O : Oracles) (wfCur : Workflow) (i : Nat)
    (step0 : Step) (ctx : Ctx) (st : EngineSt)
    (hhook : ∀ h, O.repair_hook = some h →
      ∀ w s m c, ((h w s m c).steps.map Step.id) = w.steps.map Step.id)
    (hidx : ∀ s', wfCur.steps[i]? = some s' → s'.id = step0.id) :
    ∃ body, (run_step O wfCur i step0 ctx st).1.trace = st.trace ++ body ∧
      (∀ ctx' wf', (run_step O wfCur i step0 ctx st).2 = .ok (ctx', wf') →
        (∃ outs, commitsOf body = [(step0.id, outs)] ∧
          ctx' = ctxCommit ctx step0.id outs) ∧
        wf'.steps.map Step.id = wfCur.steps.map Step.id) ∧
      (∀ e, (run_step O wfCur i step0 ctx st).2 = .error e →
        commitsOf body = []) := by
  cases hre : render_step ctx step0 with
  | error e =>
      have hrs : run_step O wfCur i step0 ctx st = (st, .error e) := by
        rw [run_step, hre]
      refine ⟨[], ?_, ?_, ?_⟩
      · rw [hrs]; simp
      · intro ctx' wf' hok
        rw [hrs] at hok
        cases hok
      · intro e2 _
        rfl
  | ok rstep =>
      have hid : rstep.id = step0.id := (render_step_preserves hre).1
      have hrs : run_step O wfCur i step0 ctx st =
          retry_loop O wfCur i rstep ctx (rstep.policy.retries + 1) st := by
        rw [run_step, hre]
      obtain ⟨body, htr, hok, herr⟩ :=
        retry_loop_commits O wfCur i rstep ctx hhook
          (fun s' hs' => (hidx s' hs').trans hid.symm)
          rstep.policy.retries st
      refine ⟨body, ?_, ?_, ?_⟩
      · rw [hrs]
        exact htr
      · intro ctx' wf' h2
        rw [hrs] at h2
        obtain ⟨⟨outs, hco, hcc⟩, hw⟩ := hok ctx' wf' h2
        exact ⟨⟨outs, by rw [hco, hid], by rw [hcc, hid]⟩, hw⟩
      · intro e h2
        rw [hrs] at h2
        exact herr e h2

theorem run_steps_commits (O : Oracles) (wf : Workflow)
    (hhook : ∀ h, O.repair_hook = some h →
      ∀ w s m c, ((h w s m c).steps.map Step.id) = w.steps.map Step.id)
    (hnd : (wf.steps.map Step.id).Nodup) :
    ∀ (ss : List Step) (k : Nat) (wfCur : Workflow) (ctx : Ctx) (st : EngineSt)
      (d : List (String × TVal)),
      ss = wf.steps.drop k →
      wfCur.steps.map Step.id = wf.steps.map Step.id →
      dictGet ctx ("steps") = some (.dict d) →
      d.map Prod.fst = (wf.steps.take k).map Step.id →
      ∃ body, (run_steps O ss k wfCur ctx st).1.trace = st.trace ++ body ∧
        (∀ ctx' wf'', (run_steps O ss k wfCur ctx st).2 = .ok (ctx', wf'') →
          (commitsOf body).map Prod.fst = (wf.steps.drop k).map Step.id ∧
          dictGet ctx' ("steps") =
            some (.dict (d ++
              (commitsOf body).map (fun p => (p.1, TVal.dict p.2))))) ∧
        (∀ e, (run_steps O ss k wfCur ctx st).2 = .error e →
          ∃ j, k ≤ j ∧ j < wf.steps.length ∧
            d.map Prod.fst ++ (commitsOf body).map Prod.fst =
              (wf.steps.take j).map Step.id) := by
  intro ss
  induction ss with
  | nil =>
      intro k wfCur ctx st d hdrop hwids hctx hkeys
      refine ⟨[], by simp [run_steps], ?_, ?_⟩
      · intro ctx' wf'' hok
        rw [run_steps] at hok
        cases hok
        constructor
        · rw [← hdrop]
          rfl
        · rw [hctx]
          simp [commitsOf]
      · intro e herr
        rw [run_steps] at herr
        cases herr
  | cons s rest ih =>
      intro k wfCur ctx st d hdrop hwids hctx hkeys
      have hk : wf.steps[k]? = some s := by
        have h0 : (wf.steps.drop k)[0]? = some s := by rw [← hdrop]; simp
        rw [List.getElem?_drop] at h0
        simpa using h0
      have hrest : rest = wf.steps.drop (k + 1) := by
        rw [← List.tail_drop, ← hdrop]
        rfl
      have hklen : k < wf.steps.length := by
        by_contra hge
        rw [List.getElem?_eq_none (Nat.le_of_not_lt hge)] at hk
        cases hk
      have hsid : s.id ∉ d.map Prod.fst := by
        rw [hkeys, List.map_take]
        apply not_mem_take_of_nodup hnd
        rw [List.getElem?_map, hk]
        rfl
      have hidx : ∀ s', wfCur.steps[k]? = some s' → s'.id = s.id := by
        intro s' hs'
        have h1 := getElem?_map_id_eq hwids k
        rw [hs', hk] at h1
        exact Option.some.inj (by simpa using h1)
      rcases hrs : run_step O wfCur k s ctx st with ⟨st₁, r₁⟩
      obtain ⟨body₁, htr₁, hok₁, herr₁⟩ :=
        run_step_commits O wfCur k s ctx st hhook hidx
      have htr₁' : st₁.trace = st.trace ++ body₁ := by
        rw [hrs] at htr₁
        exact htr₁
      have hrun : run_steps O (s :: rest) k wfCur ctx st =
          (match run_step O wfCur k s ctx st with
           | (st', .ok (ctx', wf')) => run_steps O rest (k + 1) wf' ctx' st'
           | (st', .error e) => (st', .error e)) := by
        rw [run_steps]
      rw [hrs] at hrun
      cases r₁ with
      | error e =>
          refine ⟨body₁, ?_, ?_, ?_⟩
          · rw [hrun]
            exact htr₁'
          · intro ctx' wf'' hok
            rw [hrun] at hok
            cases hok
          · intro e2 _
            refine ⟨k, Nat.le_refl k, hklen, ?_⟩
            have hcb : commitsOf body₁ = [] := herr₁ e (by rw [hrs])
            rw [hcb, hkeys]
            simp
      | ok p =>
          obtain ⟨ctx₁, wf₁⟩ := p
          obtain ⟨⟨outs, hco, hcc⟩, hw₁⟩ := hok₁ ctx₁ wf₁ (by rw [hrs])
          have hctx₁ : dictGet ctx₁ ("steps") =
              some (.dict (d ++ [(s.id, .dict outs)])) := by
            rw [hcc, ctxCommit_get hctx, dictSet_fresh _ hsid]
          have hkeys₁ : (d ++ [(s.id, TVal.dict outs)]).map Prod.fst =
              (wf.steps.take (k + 1)).map Step.id := by
            rw [List.map_append, hkeys, List.take_succ, hk]
            simp
          have hw₁' : wf₁.steps.map Step.id = wf.steps.map Step.id :=
            hw₁.trans hwids
          obtain ⟨body₂, htr₂, hok₂, herr₂⟩ :=
            ih (k + 1) wf₁ ctx₁ st₁ (d ++ [(s.id, .dict outs)]) hrest hw₁'
              hctx₁ hkeys₁
          refine ⟨body₁ ++ body₂, ?_, ?_, ?_⟩
          · rw [hrun, htr₂, htr₁']
            simp
          · intro ctx' wf'' hok
            rw [hrun] at hok
            obtain ⟨hids₂, hdict₂⟩ := hok₂ ctx' wf'' hok
            constructor
            · rw [commitsOf_append, List.map_append, hco, hids₂, ← hrest,
                ← hdrop]
              simp
            · rw [hdict₂, commitsOf_append, hco]
              simp [List.append_assoc]
          · intro e herr
            rw [hrun] at herr
            obtain ⟨j, hj1, hj2, hj3⟩ := herr₂ e herr
            refine ⟨j, Nat.le_of_succ_le hj1, hj2, ?_⟩
            rw [commitsOf_append, hco]
            simpa [List.map_append, List.append_assoc] using hj3

/-- C6: under unique step ids (and an id-preserving repair hook, since the
hook may otherwise rewrite ids arbitrarily), the steps mapping of the run
context is append-only: after the run it holds exactly one entry per
successfully committed step, in document order (the ids committed are an
initial segment of the workflow's id list, with no duplicate and hence no
overwrite), the final context's steps mapping on success lists precisely
the committed (id, outputs) pairs in commit order, and when the run fails
at step k nothing was ever committed under that step's id. -/
theorem C6_append_only_commits (O : Oracles) (wf : Workflow) (inputs : Ctx)
    (st : EngineSt) (res : Except PyErr Ctx)
    (hrun : orchestrator_run O wf inputs = (st, res))
    (hids : (wf.steps.map Step.id).Nodup)
    (hhook : ∀ h, O.repair_hook = some h →
      ∀ w s m c, ((h w s m c).steps.map Step.id) = w.steps.map Step.id) :
    ∃ k, k ≤ wf.steps.length ∧
      (commitsOf st.trace).map Prod.fst = (wf.steps.take k).map Step.id ∧
      ((commitsOf st.trace).map Prod.fst).Nodup ∧
      (∀ ctx', res = .ok ctx' → k = wf.steps.length ∧
        dictGet ctx' ("steps") = some (.dict
          ((commitsOf st.trace).map (fun p => (p.1, TVal.dict p.2))))) ∧
      (∀ e, res = .error e → k < wf.steps.length ∧
        ∀ s, wf.steps[k]? = some s →
          s.id ∉ (commitsOf st.trace).map Prod.fst) := by
  have hctx0 : dictGet (dictSet inputs ("steps") (.dict [])) ("steps") =
      some (.dict ([] : List (String × TVal))) := dictGet_dictSet_self ..
  obtain ⟨body, htr, hok, herr⟩ :=
    run_steps_commits O wf hhook hids wf.steps 0 wf
      (dictSet inputs ("steps") (.dict [])) {} []
      (by rw [List.drop_zero]) rfl hctx0 rfl
  rcases hrs : run_steps O wf.steps 0 wf (dictSet inputs ("steps") (.dict [])) {}
    with ⟨stR, r⟩
  have hrun' : orchestrator_run O wf inputs =
      (match run_steps O wf.steps 0 wf (dictSet inputs ("steps") (.dict [])) {} with
       | (st, .ok (ctx, _)) => (st, .ok ctx)
       | (st, .error e) => (st, .error e)) := by
    rw [orchestrator_run]
  rw [hrs] at hrun'
  have htrB : stR.trace = body := by
    rw [hrs] at htr
    simpa using htr
  cases r with
  | ok p =>
      obtain ⟨ctxF, wfF⟩ := p
      rw [hrun'] at hrun
      cases hrun
      obtain ⟨hids', hdict⟩ := hok ctxF wfF (by rw [hrs])
      refine ⟨wf.steps.length, Nat.le_refl _, ?_, ?_, ?_, ?_⟩
      · rw [htrB, hids']
        simp
      · rw [htrB, hids', List.drop_zero]
        exact hids
      · intro ctx' hres
        cases hres
        refine ⟨rfl, ?_⟩
        rw [htrB]
        simpa using hdict
      · intro e hres
        cases hres
  | error e =>
      rw [hrun'] at hrun
      cases hrun
      obtain ⟨j, _, hjlen, hj3⟩ := herr e (by rw [hrs])
      have hcb : (commitsOf body).map Prod.fst =
          (wf.steps.take j).map Step.id := by
        simpa using hj3
      refine ⟨j, Nat.le_of_lt hjlen, ?_, ?_, ?_, ?_⟩
      · rw [htrB]
        exact hcb
      · rw [htrB, hcb, List.map_take]
        exact List.Nodup.sublist (List.take_sublist j _) hids
      · intro ctx' hres
        cases hres
      · intro e2 hres
        cases hres
        refine ⟨hjlen, ?_⟩
        intro s hs
        rw [htrB, hcb, List.map_take]
        apply not_mem_take_of_nodup hids
        rw [List.getElem?_map, hs]
        rfl

/-- C6 (witness): a one-WAIT-step workflow run under executors that are
never consulted satisfies the append-only commit property. -/
theorem C6_witness :
    ∃ k, k ≤ ({ steps := [waitDefaultStep] } : Workflow).steps.length ∧
      (commitsOf (orchestrator_run idleOracles { steps := [waitDefaultStep] }
        []).1.trace).map Prod.fst =
        (({ steps := [waitDefaultStep] } : Workflow).steps.take k).map Step.id ∧
      ((commitsOf (orchestrator_run idleOracles { steps := [waitDefaultStep] }
        []).1.trace).map Prod.fst).Nodup ∧
      (∀ ctx', (orchestrator_run idleOracles { steps := [waitDefaultStep] }
          []).2 = .ok ctx' →
        k = ({ steps := [waitDefaultStep] } : Workflow).steps.length ∧
        dictGet ctx' ("steps") = some (.dict
          ((commitsOf (orchestrator_run idleOracles { steps := [waitDefaultStep] }
            []).1.trace).map (fun p => (p.1, TVal.dict p.2))))) ∧
      (∀ e, (orchestrator_run idleOracles { steps := [waitDefaultStep] }
          []).2 = .error e →
        k < ({ steps := [waitDefaultStep] } : Workflow).steps.length ∧
        ∀ s, ({ steps := [waitDefaultStep] } : Workflow).steps[k]? = some s →
          s.id ∉ (commitsOf (orchestrator_run idleOracles
            { steps := [waitDefaultStep] } []).1.trace).map Prod.fst) :=
  C6_append_only_commits idleOracles { steps := [waitDefaultStep] } []
    (orchestrator_run idleOracles { steps := [waitDefaultStep] } []).1
    (orchestrator_run idleOracles { steps := [waitDefaultStep] } []).2
    rfl (by decide) (fun h hh => nomatch hh)

/-- C6 (counterexample): with unique workflow step ids, a repair hook
that renames the failing step to an already-committed id makes the run
commit twice under the same id, and the second commit overwrites the
first entry in the steps mapping — so append-only fails under the
claim's precondition alone. -/
theorem C6_counterexample :
    (c6cWf.steps.map Step.id).Nodup ∧
    ∃ st ctx, orchestrator_run c6cOracles c6cWf [] = (st, .ok ctx) ∧
      (commitsOf st.trace).map Prod.fst = ["a", "a"] ∧
      ¬ ((commitsOf st.trace).map Prod.fst).Nodup ∧
      dictGet ctx ("steps") =
        some (.dict [("a", .dict [("waited_seconds", .num 1)])]) := by
  refine ⟨by decide, _, _, rfl, rfl, by decide, rfl⟩

end Demo2Agent
